import Mathlib

/-!
Verification of the segregated-dendrite deep learning simulation engine
(`deep_learning.py`): a shallow embedding of its simulation parameters,
kernel/activation functions, layer dynamics, and the two-phase training
driver, together with theorems settling the specification claims.

Machine floating point is modelled by exact real arithmetic; the stochastic
draws (`np.random.poisson`, `np.random.wald`, `np.random.normal`) are
modelled as oracle inputs, so every theorem quantifies over all possible
draws.
-/

namespace SegDend

noncomputable section

/-! ## Simulation parameters (module-level constants of `deep_learning.py`) -/

/-- Time step `dt = 1.0` (ms). -/
def dt : ℝ := 1

/-- Spike memory window, `mem = int(10/dt)` time steps. -/
def mem : ℕ := 10

/-- Integration window for plasticity, `integration_time = int(20/dt)`. -/
def integration_time : ℕ := 20

/-- Default length of the forward phase, `l_f_phase = int(50/dt)`. -/
def l_f_phase : ℕ := 50

/-- Default length of the target phase, `l_t_phase = int(50/dt)`. -/
def l_t_phase : ℕ := 50

/-- Length of the forward phase during testing, `l_f_phase_test = int(250/dt)`. -/
def l_f_phase_test : ℕ := 250

/-- Minimum forward-phase length when `use_rand_phase_lengths` is on. -/
def min_l_f_phase : ℕ := l_f_phase

/-- Minimum target-phase length when `use_rand_phase_lengths` is on. -/
def min_l_t_phase : ℕ := l_t_phase

/-- Maximum spike rate, `phi_max = 0.2*dt`. -/
def phi_max : ℝ := 0.2 * dt

/-- Synaptic time constant `tau_s = 3.0`. -/
def tau_s : ℝ := 3

/-- Leak time constant `tau_L = 10.0`. -/
def tau_L : ℝ := 10

/-- Basal conductance `g_B = 0.6`. -/
def g_B : ℝ := 0.6

/-- Apical conductance: `0.05 if use_apical_conductance else 0`. -/
def gA_of (use_apical_conductance : Bool) : ℝ :=
  if use_apical_conductance then 0.05 else 0

/-- Apical conductance under the shipped configuration
(`use_apical_conductance = False`). -/
def g_A : ℝ := gA_of false

/-- Leak conductance `g_L = 1.0/tau_L`. -/
def g_L : ℝ := 1 / tau_L

/-- Dendritic conductance in the output layer, `g_D = g_B`. -/
def g_D : ℝ := g_B

/-- Excitation reversal potential `E_E = 8`. -/
def E_E : ℝ := 8

/-- Inhibition reversal potential `E_I = -8`. -/
def E_I : ℝ := -8

/-- Steady state constant `k_B = g_B/(g_L + g_B + g_A)` as a function of the
apical-conductance flag (the source computes it from the configured `g_A`). -/
def kB_of (use_apical_conductance : Bool) : ℝ :=
  g_B / (g_L + g_B + gA_of use_apical_conductance)

/-- Steady state constant `k_B` under the shipped configuration. -/
def k_B : ℝ := kB_of false

/-- Steady state constant `k_D = g_D/(g_L + g_D)`. -/
def k_D : ℝ := g_D / (g_L + g_D)

/-- Steady state constant `k_I = 1.0/(g_L + g_D)`. -/
def k_I : ℝ := 1 / (g_L + g_D)

/-- Hidden layer error scaling factor `P_hidden = 20.0/phi_max`. -/
def P_hidden : ℝ := 20 / phi_max

/-- Final layer error scaling factor `P_final = 20.0/(phi_max**2)`. -/
def P_final : ℝ := 20 / phi_max ^ 2

/-! ## Activation and kernel functions -/

/-- Spike rate equation `phi(x) = phi_max/(1.0 + np.exp(-x))`. -/
def phi (x : ℝ) : ℝ := phi_max / (1 + Real.exp (-x))

/-- Derivative of the spike rate,
`deriv_phi(x) = phi_max*np.exp(x)/(1.0 + np.exp(x))**2`. -/
def deriv_phi (x : ℝ) : ℝ := phi_max * Real.exp x / (1 + Real.exp x) ^ 2

/-- Nonlinearity at the apical dendrite, `alpha(x) = 1.0/(1.0 + np.exp(-x))`. -/
def alpha (x : ℝ) : ℝ := 1 / (1 + Real.exp (-x))

/-- Derivative of `alpha`, `deriv_alpha(x) = np.exp(x)/(1.0 + np.exp(x))**2`. -/
def deriv_alpha (x : ℝ) : ℝ := Real.exp x / (1 + Real.exp x) ^ 2

/-- Synaptic kernel
`kappa(x) = (np.exp(-x/tau_L) - np.exp(-x/tau_s))/(tau_L - tau_s)`. -/
def kappa (x : ℝ) : ℝ :=
  (Real.exp (-x / tau_L) - Real.exp (-x / tau_s)) / (tau_L - tau_s)

/-- `get_kappas(n) = np.array([kappa(i+1) for i in xrange(n)])`. -/
def get_kappas (n : ℕ) : Fin n → ℝ := fun i => kappa ((i : ℕ) + 1)

/-- The kernel array used by every PSP computation:
`kappas = np.flipud(get_kappas(mem))`, so entry `j` holds `kappa(mem - j)`
(the newest history column is weighted by `kappa(1)`). -/
def kappas : Fin mem → ℝ := fun j => kappa ((mem - (j : ℕ) : ℕ))

/-- Postsynaptic potential estimate from a spike-history matrix:
`np.dot(hist, kappas)`. -/
def pspOf {k : ℕ} (hist : Fin k → Fin mem → ℝ) : Fin k → ℝ :=
  fun i => ∑ j, hist i j * kappas j

/-! ## History buffers

`S_hist` is a sliding window updated by
`np.concatenate([hist[:, 1:], new], axis=-1)`; the per-neuron integration
histories (`C_hist`, `A_hist`, ...) are ring buffers written at column
`integration_counter % integration_time`. -/

/-- Ring-buffer column write `hist[:, t % T] = v`. -/
def writeCol {k T : ℕ} (h : Fin k → Fin T → ℝ) (t : ℕ) (v : Fin k → ℝ) :
    Fin k → Fin T → ℝ :=
  fun i j => if (j : ℕ) = t % T then v i else h i j

/-- Sliding-window append `np.concatenate([hist[:, 1:], v], axis=-1)`. -/
def shiftAppend {k n : ℕ} (h : Fin k → Fin n → ℝ) (v : Fin k → ℝ) :
    Fin k → Fin n → ℝ :=
  fun i j => if hlt : (j : ℕ) + 1 < n then h i ⟨(j : ℕ) + 1, hlt⟩ else v i

/-- Row-wise mean `np.mean(hist, axis=-1)`. -/
def meanH {k T : ℕ} (h : Fin k → Fin T → ℝ) : Fin k → ℝ :=
  fun i => (∑ j, h i j) / (T : ℝ)

/-! ## Layer state

Mutable per-neuron state of the two layer classes.  The shipped
configuration has `update_backward_weights = False`, so the
`average_PSP_A_f/t` accumulators are never created; all other attributes
are modelled.  `C_dot` is a scratch value never read after the step and is
not modelled as state. -/

/-- Mutable state of a `hiddenLayer` with `size` units, forward input
dimension `fIn` and feedback input dimension `bIn`. -/
@[ext]
structure HiddenState (size fIn bIn : ℕ) where
  A : Fin size → ℝ
  B : Fin size → ℝ
  C : Fin size → ℝ
  phi_C : Fin size → ℝ
  S_hist : Fin size → Fin mem → ℝ
  A_hist : Fin size → Fin integration_time → ℝ
  PSP_A : Fin bIn → ℝ
  PSP_B : Fin fIn → ℝ
  PSP_A_hist : Fin bIn → Fin integration_time → ℝ
  PSP_B_hist : Fin fIn → Fin integration_time → ℝ
  C_hist : Fin size → Fin integration_time → ℝ
  phi_C_hist : Fin size → Fin integration_time → ℝ
  delta_W : Fin size → Fin fIn → ℝ
  delta_Y : Fin size → Fin bIn → ℝ
  delta_b : Fin size → ℝ
  E : Fin size → ℝ
  E_bp : Fin size → ℝ
  delta_b_bp : Fin size → ℝ
  average_C_f : Fin size → ℝ
  average_C_t : Fin size → ℝ
  average_A_f : Fin size → ℝ
  average_A_t : Fin size → ℝ
  average_phi_C_f : Fin size → ℝ
  average_PSP_B_f : Fin fIn → ℝ
  average_PSP_B_t : Fin fIn → ℝ
  integration_counter : ℕ

/-- Mutable state of a `finalLayer` with `size` units and forward input
dimension `fIn`. -/
@[ext]
structure FinalState (size fIn : ℕ) where
  B : Fin size → ℝ
  I : Fin size → ℝ
  C : Fin size → ℝ
  phi_C : Fin size → ℝ
  S_hist : Fin size → Fin mem → ℝ
  PSP_B : Fin fIn → ℝ
  PSP_B_hist : Fin fIn → Fin integration_time → ℝ
  C_hist : Fin size → Fin integration_time → ℝ
  phi_C_hist : Fin size → Fin integration_time → ℝ
  delta_W : Fin size → Fin fIn → ℝ
  delta_b : Fin size → ℝ
  E : Fin size → ℝ
  E_bp : Fin size → ℝ
  average_C_f : Fin size → ℝ
  average_C_t : Fin size → ℝ
  average_phi_C_f : Fin size → ℝ
  average_phi_C_t : Fin size → ℝ
  average_PSP_B_f : Fin fIn → ℝ
  average_PSP_B_t : Fin fIn → ℝ
  integration_counter : ℕ

/-- Learned parameters of a two-layer network (`n = (n0, n1)`, input size
`nIn`): forward weights `W[0], W[1]`, biases `b[0], b[1]`, feedback weights
`Y[0]` and feedback bias `c[0]` of the hidden layer.  The output layer's
`Y[1]` is a dummy identity and its `c[1]` is never created as an array, so
they are not state. -/
@[ext]
structure Weights (nIn n0 n1 : ℕ) where
  W0 : Fin n0 → Fin nIn → ℝ
  b0 : Fin n0 → ℝ
  W1 : Fin n1 → Fin n0 → ℝ
  b1 : Fin n1 → ℝ
  Y0 : Fin n0 → Fin n1 → ℝ
  c0 : Fin n0 → ℝ

/-- Full mutable network state for a two-layer network: weights, both layer
states and the input spike history `x_hist`. -/
@[ext]
structure NetState (nIn n0 n1 : ℕ) where
  wts : Weights nIn n0 n1
  l0 : HiddenState n0 nIn n1
  l1 : FinalState n1 n0
  x_hist : Fin nIn → Fin mem → ℝ

/-- One timestep's stochastic draws: `np.random.poisson(x)` for the input
history push and `np.random.poisson(phi_C)` for each layer's spike. -/
structure Draws (nIn n0 n1 : ℕ) where
  x : Fin nIn → ℝ
  s0 : Fin n0 → ℝ
  s1 : Fin n1 → ℝ

namespace hiddenLayer

variable {nIn n0 n1 : ℕ}

/-- `hiddenLayer.update_B` with `use_spiking_feedforward`: PSP is the
kernel inner product of the forward spike history; then
`B = np.dot(W[m], PSP_B) + b[m]`. -/
def update_B (wts : Weights nIn n0 n1) (f_input : Fin nIn → Fin mem → ℝ)
    (s : HiddenState n0 nIn n1) : HiddenState n0 nIn n1 :=
  let p := pspOf f_input
  { s with
    PSP_B := p
    PSP_B_hist := writeCol s.PSP_B_hist (s.integration_counter % integration_time) p
    B := fun i => (∑ j, wts.W0 i j * p j) + wts.b0 i }

/-- `hiddenLayer.update_B` with `use_spiking_feedforward = False`: the PSP
estimate is the raw input rate vector. -/
def update_B_rate (wts : Weights nIn n0 n1) (f_input : Fin nIn → ℝ)
    (s : HiddenState n0 nIn n1) : HiddenState n0 nIn n1 :=
  { s with
    PSP_B := f_input
    PSP_B_hist := writeCol s.PSP_B_hist (s.integration_counter % integration_time) f_input
    B := fun i => (∑ j, wts.W0 i j * f_input j) + wts.b0 i }

/-- `hiddenLayer.update_A` with `use_spiking_feedback`: PSP is the kernel
inner product of the feedback spike history; then
`A = np.dot(Y[m], PSP_A) + c[m]`. -/
def update_A (wts : Weights nIn n0 n1) (b_input : Fin n1 → Fin mem → ℝ)
    (s : HiddenState n0 nIn n1) : HiddenState n0 nIn n1 :=
  let p := pspOf b_input
  let a : Fin n0 → ℝ := fun i => (∑ j, wts.Y0 i j * p j) + wts.c0 i
  { s with
    PSP_A := p
    PSP_A_hist := writeCol s.PSP_A_hist (s.integration_counter % integration_time) p
    A := a
    A_hist := writeCol s.A_hist (s.integration_counter % integration_time) a }

/-- `hiddenLayer.update_A` with `use_spiking_feedback = False`. -/
def update_A_rate (wts : Weights nIn n0 n1) (b_input : Fin n1 → ℝ)
    (s : HiddenState n0 nIn n1) : HiddenState n0 nIn n1 :=
  let a : Fin n0 → ℝ := fun i => (∑ j, wts.Y0 i j * b_input j) + wts.c0 i
  { s with
    PSP_A := b_input
    PSP_A_hist := writeCol s.PSP_A_hist (s.integration_counter % integration_time) b_input
    A := a
    A_hist := writeCol s.A_hist (s.integration_counter % integration_time) a }

/-- `hiddenLayer.update_C`: forward-Euler conductance integration of the
somatic potential (with or without the attenuated apical conductance), or
the algebraic steady state `C = k_B*B` when conductances are disabled (the
source computes the same steady state in both phases), followed by the
spike rate `phi_C = phi(C)` and the history writes. -/
def update_C (use_conductances use_apical_conductance : Bool)
    (s : HiddenState n0 nIn n1) : HiddenState n0 nIn n1 :=
  let cNew : Fin n0 → ℝ :=
    if use_conductances then
      if use_apical_conductance then
        fun i => s.C i +
          (-g_L * s.C i + g_B * (s.B i - s.C i) + gA_of true * (s.A i - s.C i)) * dt
      else
        fun i => s.C i + (-g_L * s.C i + g_B * (s.B i - s.C i)) * dt
    else
      fun i => kB_of use_apical_conductance * s.B i
  { s with
    C := cNew
    C_hist := writeCol s.C_hist (s.integration_counter % integration_time) cNew
    phi_C := fun i => phi (cNew i)
    phi_C_hist := writeCol s.phi_C_hist (s.integration_counter % integration_time)
      (fun i => phi (cNew i)) }

/-- `hiddenLayer.spike`: append the Poisson draw to the spike history. -/
def spike (draw : Fin n0 → ℝ) (s : HiddenState n0 nIn n1) : HiddenState n0 nIn n1 :=
  { s with S_hist := shiftAppend s.S_hist draw }

/-- `hiddenLayer.out_f` under the shipped configuration (spiking
feedforward and feedback, conductances on, apical conductance off,
`update_backward_weights` off). -/
def out_f (wts : Weights nIn n0 n1) (f_input : Fin nIn → Fin mem → ℝ)
    (b_input : Fin n1 → Fin mem → ℝ) (draw : Fin n0 → ℝ) (calc_averages : Bool)
    (s : HiddenState n0 nIn n1) : HiddenState n0 nIn n1 :=
  let s4 := spike draw (update_C true false (update_A wts b_input (update_B wts f_input s)))
  let s5 := { s4 with
    integration_counter := (s4.integration_counter + 1) % integration_time }
  if calc_averages then
    { s5 with
      average_C_f := meanH s5.C_hist
      average_A_f := meanH s5.A_hist
      average_phi_C_f := meanH s5.phi_C_hist
      average_PSP_B_f := meanH s5.PSP_B_hist }
  else s5

/-- `hiddenLayer.out_t` under the shipped configuration. -/
def out_t (wts : Weights nIn n0 n1) (f_input : Fin nIn → Fin mem → ℝ)
    (b_input : Fin n1 → Fin mem → ℝ) (draw : Fin n0 → ℝ) (calc_averages : Bool)
    (s : HiddenState n0 nIn n1) : HiddenState n0 nIn n1 :=
  let s4 := spike draw (update_C true false (update_A wts b_input (update_B wts f_input s)))
  let s5 := { s4 with
    integration_counter := (s4.integration_counter + 1) % integration_time }
  if calc_averages then
    { s5 with
      average_C_t := meanH s5.C_hist
      average_A_t := meanH s5.A_hist
      average_PSP_B_t := meanH s5.PSP_B_hist }
  else s5

/-- `hiddenLayer.clear_vars`: every listed variable is multiplied by zero
in place and the integration counter is reset. -/
def clear_vars (s : HiddenState n0 nIn n1) : HiddenState n0 nIn n1 :=
  { A := fun i => s.A i * 0
    B := fun i => s.B i * 0
    C := fun i => s.C i * 0
    phi_C := fun i => s.phi_C i * 0
    S_hist := fun i j => s.S_hist i j * 0
    A_hist := fun i j => s.A_hist i j * 0
    PSP_A := s.PSP_A
    PSP_B := s.PSP_B
    PSP_A_hist := fun i j => s.PSP_A_hist i j * 0
    PSP_B_hist := fun i j => s.PSP_B_hist i j * 0
    C_hist := fun i j => s.C_hist i j * 0
    phi_C_hist := fun i j => s.phi_C_hist i j * 0
    delta_W := fun i j => s.delta_W i j * 0
    delta_Y := fun i j => s.delta_Y i j * 0
    delta_b := fun i => s.delta_b i * 0
    E := s.E
    E_bp := s.E_bp
    delta_b_bp := s.delta_b_bp
    average_C_f := fun i => s.average_C_f i * 0
    average_C_t := fun i => s.average_C_t i * 0
    average_A_f := fun i => s.average_A_f i * 0
    average_A_t := fun i => s.average_A_t i * 0
    average_phi_C_f := fun i => s.average_phi_C_f i * 0
    average_PSP_B_f := fun i => s.average_PSP_B_f i * 0
    average_PSP_B_t := fun i => s.average_PSP_B_t i * 0
    integration_counter := 0 }

end hiddenLayer

namespace finalLayer

variable {nIn n0 n1 : ℕ}

/-- `finalLayer.update_B` with `use_spiking_feedforward`. -/
def update_B (wts : Weights nIn n0 n1) (f_input : Fin n0 → Fin mem → ℝ)
    (s : FinalState n1 n0) : FinalState n1 n0 :=
  let p := pspOf f_input
  { s with
    PSP_B := p
    PSP_B_hist := writeCol s.PSP_B_hist (s.integration_counter % integration_time) p
    B := fun i => (∑ j, wts.W1 i j * p j) + wts.b1 i }

/-- `finalLayer.update_I` with `input=None` (forward phase): `I *= 0`. -/
def update_I_none (s : FinalState n1 n0) : FinalState n1 n0 :=
  { s with I := fun i => s.I i * 0 }

/-- `finalLayer.update_I` with a target signal: the conductance form
`I = g_E*(E_E - C) + g_I*(E_I - C)` with `g_E` the target and
`g_I = -g_E + 1`, or the affine form `I = 8*input - 4` when conductances
are disabled. -/
def update_I_target (use_conductances : Bool) (input : Fin n1 → ℝ)
    (s : FinalState n1 n0) : FinalState n1 n0 :=
  if use_conductances then
    { s with I := fun i => input i * (E_E - s.C i) + (-input i + 1) * (E_I - s.C i) }
  else
    { s with I := fun i => 8 * input i - 4 }

/-- `finalLayer.update_C`: forward-Euler integration
`dC/dt = -g_L*C + g_D*(B - C) [+ I]` (the injected current only in the
target phase), or the algebraic steady state `k_D*B [+ k_I*I]` when
conductances are disabled. -/
def update_C (use_conductances targetPhase : Bool)
    (s : FinalState n1 n0) : FinalState n1 n0 :=
  let cNew : Fin n1 → ℝ :=
    if use_conductances then
      if targetPhase then
        fun i => s.C i + (-g_L * s.C i + g_D * (s.B i - s.C i) + s.I i) * dt
      else
        fun i => s.C i + (-g_L * s.C i + g_D * (s.B i - s.C i)) * dt
    else
      if targetPhase then
        fun i => k_D * s.B i + k_I * s.I i
      else
        fun i => k_D * s.B i
  { s with
    C := cNew
    C_hist := writeCol s.C_hist (s.integration_counter % integration_time) cNew
    phi_C := fun i => phi (cNew i)
    phi_C_hist := writeCol s.phi_C_hist (s.integration_counter % integration_time)
      (fun i => phi (cNew i)) }

/-- `finalLayer.spike`. -/
def spike (draw : Fin n1 → ℝ) (s : FinalState n1 n0) : FinalState n1 n0 :=
  { s with S_hist := shiftAppend s.S_hist draw }

/-- `finalLayer.out_f` under the shipped configuration. -/
def out_f (wts : Weights nIn n0 n1) (f_input : Fin n0 → Fin mem → ℝ)
    (draw : Fin n1 → ℝ) (calc_averages : Bool) (s : FinalState n1 n0) :
    FinalState n1 n0 :=
  let s4 := spike draw (update_C true false (update_I_none (update_B wts f_input s)))
  let s5 := { s4 with
    integration_counter := (s4.integration_counter + 1) % integration_time }
  if calc_averages then
    { s5 with
      average_C_f := meanH s5.C_hist
      average_phi_C_f := meanH s5.phi_C_hist
      average_PSP_B_f := meanH s5.PSP_B_hist }
  else s5

/-- `finalLayer.out_t` under the shipped configuration. -/
def out_t (wts : Weights nIn n0 n1) (f_input : Fin n0 → Fin mem → ℝ)
    (target : Fin n1 → ℝ) (draw : Fin n1 → ℝ) (calc_averages : Bool)
    (s : FinalState n1 n0) : FinalState n1 n0 :=
  let s4 := spike draw
    (update_C true true (update_I_target true target (update_B wts f_input s)))
  let s5 := { s4 with
    integration_counter := (s4.integration_counter + 1) % integration_time }
  if calc_averages then
    { s5 with
      average_C_t := meanH s5.C_hist
      average_phi_C_t := meanH s5.phi_C_hist
      average_PSP_B_t := meanH s5.PSP_B_hist }
  else s5

/-- `finalLayer.clear_vars`: every listed variable is multiplied by zero in
place and the integration counter is reset.  Note the source does not
clear `PSP_B_hist`, `C_hist` or `phi_C_hist` here. -/
def clear_vars (s : FinalState n1 n0) : FinalState n1 n0 :=
  { B := fun i => s.B i * 0
    I := fun i => s.I i * 0
    C := fun i => s.C i * 0
    phi_C := fun i => s.phi_C i * 0
    S_hist := fun i j => s.S_hist i j * 0
    PSP_B := s.PSP_B
    PSP_B_hist := s.PSP_B_hist
    C_hist := s.C_hist
    phi_C_hist := s.phi_C_hist
    delta_W := fun i j => s.delta_W i j * 0
    delta_b := fun i => s.delta_b i * 0
    E := s.E
    E_bp := s.E_bp
    average_C_f := fun i => s.average_C_f i * 0
    average_C_t := fun i => s.average_C_t i * 0
    average_phi_C_f := fun i => s.average_phi_C_f i * 0
    average_phi_C_t := fun i => s.average_phi_C_t i * 0
    average_PSP_B_f := fun i => s.average_PSP_B_f i * 0
    average_PSP_B_t := fun i => s.average_PSP_B_t i * 0
    integration_counter := 0 }

end finalLayer

namespace Network

variable {nIn n0 n1 : ℕ}

/-- `finalLayer.update_W`: local error
`E = (np.mean(phi_C_hist) - phi(average_C_f)) * -k_D * deriv_phi(average_C_f)`,
weight delta `np.dot(E, average_PSP_B_f.T)`, and the rows selected by the
burst mask updated by `-f_eta * P_final * delta`.  Since
`record_backprop_angle` is on, `E_bp = E` is also stored.  Acts on the
network state because it mutates `net.W[-1]` and `net.b[-1]`. -/
def final_update_W (f_eta : ℝ) (bmask : Fin n1 → Bool) (st : NetState nIn n0 n1) :
    NetState nIn n0 n1 :=
  let s := st.l1
  let e : Fin n1 → ℝ := fun i =>
    (meanH s.phi_C_hist i - phi (s.average_C_f i)) * -k_D * deriv_phi (s.average_C_f i)
  let dW : Fin n1 → Fin n0 → ℝ := fun i j => e i * s.average_PSP_B_f j
  { st with
    wts := { st.wts with
      W1 := fun i j =>
        if bmask i then st.wts.W1 i j + -f_eta * P_final * dW i j else st.wts.W1 i j
      b1 := fun i =>
        if bmask i then st.wts.b1 i + -f_eta * P_final * e i else st.wts.b1 i }
    l1 := { s with E := e, E_bp := e, delta_W := dW, delta_b := e } }

/-- `hiddenLayer.update_W` with `use_backprop = False` and
`record_backprop_angle = True`: local error
`E = (alpha(np.mean(A_hist)) - alpha(average_A_f)) * -k_B * deriv_phi(average_C_f)`,
backprop comparison signal
`E_bp = np.dot(W[m+1].T, l[m+1].E_bp) * k_B * deriv_phi(average_C_f)`,
weight delta `np.dot(E, average_PSP_B_f.T)`, and the rows selected by the
burst mask updated by `-f_eta * P_hidden * delta`. -/
def hidden_update_W (f_eta : ℝ) (bmask : Fin n0 → Bool) (st : NetState nIn n0 n1) :
    NetState nIn n0 n1 :=
  let s := st.l0
  let e : Fin n0 → ℝ := fun i =>
    (alpha (meanH s.A_hist i) - alpha (s.average_A_f i)) * -k_B *
      deriv_phi (s.average_C_f i)
  let ebp : Fin n0 → ℝ := fun i =>
    (∑ j, st.wts.W1 j i * st.l1.E_bp j) * k_B * deriv_phi (s.average_C_f i)
  let dW : Fin n0 → Fin nIn → ℝ := fun i j => e i * s.average_PSP_B_f j
  { st with
    wts := { st.wts with
      W0 := fun i j =>
        if bmask i then st.wts.W0 i j + -f_eta * P_hidden * dW i j else st.wts.W0 i j
      b0 := fun i =>
        if bmask i then st.wts.b0 i + -f_eta * P_hidden * e i else st.wts.b0 i }
    l0 := { s with E := e, E_bp := ebp, delta_b_bp := ebp, delta_W := dW, delta_b := e } }

/-- One timestep of `Network.f_phase` under the shipped configuration
(`use_broadcast`, spiking feedforward and feedback): push the input draw
into `x_hist`, then `Network.out_f`, which updates the hidden layer from
the input history and the output layer's spike history, then the output
layer from the hidden layer's just-updated spike history. -/
def f_phase_step (d : Draws nIn n0 n1) (calc_averages : Bool) (st : NetState nIn n0 n1) :
    NetState nIn n0 n1 :=
  let xh := shiftAppend st.x_hist d.x
  let l0 := hiddenLayer.out_f st.wts xh st.l1.S_hist d.s0 calc_averages st.l0
  let l1 := finalLayer.out_f st.wts l0.S_hist d.s1 calc_averages st.l1
  { st with x_hist := xh, l0 := l0, l1 := l1 }

/-- The propagation part of one `Network.t_phase` timestep: push the input
draw, then `Network.out_t` with the target at the output layer. -/
def t_out_step (d : Draws nIn n0 n1) (target : Fin n1 → ℝ) (calc_averages : Bool)
    (st : NetState nIn n0 n1) : NetState nIn n0 n1 :=
  let xh := shiftAppend st.x_hist d.x
  let l0 := hiddenLayer.out_t st.wts xh st.l1.S_hist d.s0 calc_averages st.l0
  let l1 := finalLayer.out_t st.wts l0.S_hist target d.s1 calc_averages st.l1
  { st with x_hist := xh, l0 := l0, l1 := l1 }

/-- One full timestep of the `Network.t_phase` loop at time `time` with
target-phase length `lt`: the propagation step (averages computed at
`time == lt - 1`), then for `m = M-1, ..., 0` each layer's `update_W`
masked by `time == burst_times[m]` (`upd_b_weights = False`). -/
def t_phase_step (eta0 eta1 : ℝ) (burst0 : Fin n0 → ℕ) (burst1 : Fin n1 → ℕ)
    (lt : ℕ) (target : Fin n1 → ℝ) (d : Draws nIn n0 n1) (time : ℕ)
    (st : NetState nIn n0 n1) : NetState nIn n0 n1 :=
  let st1 := t_out_step d target (decide (time = lt - 1)) st
  let st2 := final_update_W eta1 (fun i => decide (time = burst1 i)) st1
  hidden_update_W eta0 (fun i => decide (time = burst0 i)) st2

/-- The average-reset block at the end of `Network.t_phase`: every
running-average accumulator of every layer is multiplied by zero
(output layer: `C_f, C_t, PSP_B_f, PSP_B_t, phi_C_f, phi_C_t`; hidden
layer: `C_f, C_t, PSP_B_f, PSP_B_t, A_f, A_t, phi_C_f`). -/
def reset_averages (st : NetState nIn n0 n1) : NetState nIn n0 n1 :=
  { st with
    l0 := { st.l0 with
      average_C_f := fun i => st.l0.average_C_f i * 0
      average_C_t := fun i => st.l0.average_C_t i * 0
      average_PSP_B_f := fun i => st.l0.average_PSP_B_f i * 0
      average_PSP_B_t := fun i => st.l0.average_PSP_B_t i * 0
      average_A_f := fun i => st.l0.average_A_f i * 0
      average_A_t := fun i => st.l0.average_A_t i * 0
      average_phi_C_f := fun i => st.l0.average_phi_C_f i * 0 }
    l1 := { st.l1 with
      average_C_f := fun i => st.l1.average_C_f i * 0
      average_C_t := fun i => st.l1.average_C_t i * 0
      average_PSP_B_f := fun i => st.l1.average_PSP_B_f i * 0
      average_PSP_B_t := fun i => st.l1.average_PSP_B_t i * 0
      average_phi_C_f := fun i => st.l1.average_phi_C_f i * 0
      average_phi_C_t := fun i => st.l1.average_phi_C_t i * 0 } }

/-- The first `k` timesteps of a `Network.t_phase` loop of length `lt`. -/
def t_phase_run (eta0 eta1 : ℝ) (burst0 : Fin n0 → ℕ) (burst1 : Fin n1 → ℕ)
    (lt : ℕ) (target : Fin n1 → ℝ) (d : ℕ → Draws nIn n0 n1) :
    ℕ → NetState nIn n0 n1 → NetState nIn n0 n1
  | 0, st => st
  | k + 1, st =>
    t_phase_step eta0 eta1 burst0 burst1 lt target (d k) k
      (t_phase_run eta0 eta1 burst0 burst1 lt target d k st)

/-- `Network.t_phase` for one training example with target-phase length
`lt` (under the shipped flags the symmetric-weight and sparse-feedback
post-processing is skipped): the timestep loop followed by the
average-reset block. -/
def t_phase (eta0 eta1 : ℝ) (burst0 : Fin n0 → ℕ) (burst1 : Fin n1 → ℕ)
    (lt : ℕ) (target : Fin n1 → ℝ) (d : ℕ → Draws nIn n0 n1)
    (st : NetState nIn n0 n1) : NetState nIn n0 n1 :=
  reset_averages (t_phase_run eta0 eta1 burst0 burst1 lt target d lt st)

/-- The first `k` timesteps of a `Network.f_phase` loop of length `lf`
(averages are computed at timestep `lf - 1`). -/
def f_phase_run (lf : ℕ) (d : ℕ → Draws nIn n0 n1) :
    ℕ → NetState nIn n0 n1 → NetState nIn n0 n1
  | 0, st => st
  | k + 1, st => f_phase_step (d k) (decide (k = lf - 1)) (f_phase_run lf d k st)

/-- `Network.f_phase` with forward-phase length `lf`. -/
def f_phase (lf : ℕ) (d : ℕ → Draws nIn n0 n1) (st : NetState nIn n0 n1) :
    NetState nIn n0 n1 :=
  f_phase_run lf d lf st

/-- One testing example inside `Network.test_weights`: clear all layer
variables, zero the input spike history, then run a forward phase of
length `l_f_phase_test`.  (The classification read-out only reads the
state.) -/
def test_example (d : ℕ → Draws nIn n0 n1) (st : NetState nIn n0 n1) :
    NetState nIn n0 n1 :=
  f_phase l_f_phase_test d
    { st with
      l0 := hiddenLayer.clear_vars st.l0
      l1 := finalLayer.clear_vars st.l1
      x_hist := fun _ _ => 0 }

/-- `Network.test_weights` over a list of test examples (one draw stream
per example): `self.l` is saved with `copy.copy` — a shallow copy of the
list, aliasing the layer objects — so restoring it does not restore layer
state; the input spike history reference is saved and restored (the loop
only rebinds `self.x_hist`, never mutates the saved array), and the global
`l_f_phase` is restored. -/
def test_weights (ds : List (ℕ → Draws nIn n0 n1)) (st : NetState nIn n0 n1) :
    NetState nIn n0 n1 :=
  { (ds.foldl (fun acc d => test_example d acc) st) with x_hist := st.x_hist }

end Network

/-! ## Weight initialization and the other weight-mutating operations -/

namespace Network

variable {nIn n0 n1 : ℕ}

/-- The hidden layer's feedback bias as assigned by `init_weights` in the
`use_broadcast` and `use_weight_optimization` branch:
`c[m-1] = 0.0*np.dot(Y[m-1], 3.465*W_sd*(uniform - 0.5))`. -/
def init_c_broadcast_opt (Y : Fin n0 → Fin n1 → ℝ) (W_sd : ℝ) (r : Fin n1 → ℝ) :
    Fin n0 → ℝ :=
  fun i => 0.0 * (∑ j, Y i j * (3.465 * W_sd * (r j - 0.5)))

/-- `init_weights` feedback bias, broadcast without weight optimization:
`c[m-1] = 0.0*(uniform - 0.5)`. -/
def init_c_broadcast_noopt (r : Fin n0 → ℝ) : Fin n0 → ℝ :=
  fun i => 0.0 * (r i - 0.5)

/-- `init_weights` feedback bias, layer-wise with weight optimization:
`c[m-1] = 0.0*(W_avg + 3.465*W_sd*(uniform - 0.5))`. -/
def init_c_direct_opt (W_avg W_sd : ℝ) (r : Fin n0 → ℝ) : Fin n0 → ℝ :=
  fun i => 0.0 * (W_avg + 3.465 * W_sd * (r i - 0.5))

/-- `init_weights` feedback bias, layer-wise without weight optimization:
`c[m-1] = 0.0*(uniform - 0.5)`. -/
def init_c_direct_noopt (r : Fin n0 → ℝ) : Fin n0 → ℝ :=
  fun i => 0.0 * (r i - 0.5)

/-- `Network.make_weights_symmetric` for the two-layer topology (the final
hidden layer uses the feedforward weights of the output layer, optionally
with additive noise); only `Y` is written. -/
def make_weights_symmetric (noisy : Bool) (noise : Fin n0 → Fin n1 → ℝ)
    (wts : Weights nIn n0 n1) : Weights nIn n0 n1 :=
  { wts with
    Y0 := fun i j => if noisy then wts.W1 j i + noise i j else wts.W1 j i }

/-- The sparse-feedback post-processing (in `init_weights` and at the end
of `t_phase`): zero the dropped entries of `Y` and multiply the survivors
by 5; only `Y` is written. -/
def sparsify_Y (drop : Fin n0 → Fin n1 → Bool) (wts : Weights nIn n0 n1) :
    Weights nIn n0 n1 :=
  { wts with Y0 := fun i j => (if drop i j then 0 else wts.Y0 i j) * 5 }

/-- `Network.load_weights`: `W`, `b` and `Y` are replaced by the arrays
loaded from disk; the feedback-bias load is commented out in the source,
so `c` keeps its current value. -/
def load_weights (W0L : Fin n0 → Fin nIn → ℝ) (b0L : Fin n0 → ℝ)
    (W1L : Fin n1 → Fin n0 → ℝ) (b1L : Fin n1 → ℝ) (Y0L : Fin n0 → Fin n1 → ℝ)
    (wts : Weights nIn n0 n1) : Weights nIn n0 n1 :=
  { W0 := W0L, b0 := b0L, W1 := W1L, b1 := b1L, Y0 := Y0L, c0 := wts.c0 }

end Network

/-! ## Ring-buffer characterization

The per-neuron integration histories are ring buffers of width
`integration_time`; `ringFoldT v h k` is the buffer obtained from initial
contents `h` after the writes `buf[t % T] = v t` for `t = 0, ..., k-1`,
which is exactly how a history column evolves along a phase (each layer
step writes at `integration_counter % integration_time` and the counter
starts at `0`). -/

/-- Contents of one ring-buffer row after `k` sequential writes of the
value sequence `v` at positions `t % integration_time`. -/
def ringFoldT (v : ℕ → ℝ) (h : Fin integration_time → ℝ) :
    ℕ → Fin integration_time → ℝ
  | 0 => h
  | k + 1 => fun j =>
    if (j : ℕ) = k % integration_time then v k else ringFoldT v h k j

/-- The value of an observable `f` of the network state after `t + 1`
timesteps of a forward phase of length `lf`: the per-timestep value
sequence of the phase. -/
def runSeq {nIn n0 n1 : ℕ} (lf : ℕ) (d : ℕ → Draws nIn n0 n1)
    (st : NetState nIn n0 n1) (f : NetState nIn n0 n1 → ℝ) (t : ℕ) : ℝ :=
  f (Network.f_phase_run lf d (t + 1) st)

/-! ## Concrete states used by the witnesses and counterexamples -/

/-- A hidden-layer state with all variables zero. -/
def zeroHidden (size fIn bIn : ℕ) : HiddenState size fIn bIn :=
  { A := fun _ => 0
    B := fun _ => 0
    C := fun _ => 0
    phi_C := fun _ => 0
    S_hist := fun _ _ => 0
    A_hist := fun _ _ => 0
    PSP_A := fun _ => 0
    PSP_B := fun _ => 0
    PSP_A_hist := fun _ _ => 0
    PSP_B_hist := fun _ _ => 0
    C_hist := fun _ _ => 0
    phi_C_hist := fun _ _ => 0
    delta_W := fun _ _ => 0
    delta_Y := fun _ _ => 0
    delta_b := fun _ => 0
    E := fun _ => 0
    E_bp := fun _ => 0
    delta_b_bp := fun _ => 0
    average_C_f := fun _ => 0
    average_C_t := fun _ => 0
    average_A_f := fun _ => 0
    average_A_t := fun _ => 0
    average_phi_C_f := fun _ => 0
    average_PSP_B_f := fun _ => 0
    average_PSP_B_t := fun _ => 0
    integration_counter := 0 }

/-- A final-layer state with all variables zero. -/
def zeroFinal (size fIn : ℕ) : FinalState size fIn :=
  { B := fun _ => 0
    I := fun _ => 0
    C := fun _ => 0
    phi_C := fun _ => 0
    S_hist := fun _ _ => 0
    PSP_B := fun _ => 0
    PSP_B_hist := fun _ _ => 0
    C_hist := fun _ _ => 0
    phi_C_hist := fun _ _ => 0
    delta_W := fun _ _ => 0
    delta_b := fun _ => 0
    E := fun _ => 0
    E_bp := fun _ => 0
    average_C_f := fun _ => 0
    average_C_t := fun _ => 0
    average_phi_C_f := fun _ => 0
    average_phi_C_t := fun _ => 0
    average_PSP_B_f := fun _ => 0
    average_PSP_B_t := fun _ => 0
    integration_counter := 0 }

/-- All-zero weights. -/
def zeroWts (nIn n0 n1 : ℕ) : Weights nIn n0 n1 :=
  { W0 := fun _ _ => 0
    b0 := fun _ => 0
    W1 := fun _ _ => 0
    b1 := fun _ => 0
    Y0 := fun _ _ => 0
    c0 := fun _ => 0 }

/-- All-zero network state. -/
def zeroNet (nIn n0 n1 : ℕ) : NetState nIn n0 n1 :=
  { wts := zeroWts nIn n0 n1
    l0 := zeroHidden n0 nIn n1
    l1 := zeroFinal n1 n0
    x_hist := fun _ _ => 0 }

/-- All-zero stochastic draws (a Poisson draw of `0` has positive
probability at any rate). -/
def zeroDraws (nIn n0 n1 : ℕ) : ℕ → Draws nIn n0 n1 :=
  fun _ => { x := fun _ => 0, s0 := fun _ => 0, s1 := fun _ => 0 }

/-- One-hot target of class `0` for a 10-unit output layer
(`n_neurons_per_category = 1`). -/
def cexTarget : Fin 10 → ℝ := fun i => if i = 0 then 1 else 0

/-- Output biases chosen so that under `cexTarget` the output somatic
potential `C = 1` is a fixed point of the target-phase dynamics. -/
def cexB1 : Fin 10 → ℝ := fun i => if i = 0 then -21/2 else 97/6

/-- The output layer's local error value arising in the counterexample
run. -/
def cexEval : ℝ := (phi 1 - phi 0) * -k_D * deriv_phi 0

/-- Hidden-layer burst times: every hidden unit bursts at the last
timestep `l_t_phase - 1 = 49`. -/
def cexBurst0 : Fin 1 → ℕ := fun _ => 49

/-- Output-layer burst times: every output unit bursts at timestep
`34 = l_t_phase - 1 - 15`, the earliest time reachable when
`use_rand_burst_times` is on. -/
def cexBurst1 : Fin 10 → ℕ := fun _ => 34

/-- The network state entering the counterexample target phase: zero
hidden weights, zero output forward weights, output biases `cexB1`, output
somatic potential at its fixed point `1`, spike-rate history saturated at
`phi 1`, and zero forward-phase averages. -/
def cexNet : NetState 1 1 10 :=
  { zeroNet 1 1 10 with
    wts := { zeroWts 1 1 10 with b1 := cexB1 }
    l1 := { zeroFinal 10 1 with
      C := fun _ => 1
      phi_C := fun _ => phi 1
      C_hist := fun _ _ => 1
      phi_C_hist := fun _ _ => phi 1 } }

/-- The invariant maintained by the counterexample run before the output
layer's burst time: the fields of the network state that determine the
output layer's weight update. -/
def cexInv (st : NetState 1 1 10) : Prop :=
  st.wts.W1 = (fun _ _ => 0) ∧ st.wts.b1 = cexB1 ∧
    st.l1.C = (fun _ => 1) ∧ st.l1.phi_C_hist = (fun _ _ => phi 1) ∧
    st.l1.average_C_f = (fun _ => 0) ∧ st.l1.average_PSP_B_f = (fun _ => 0)

/-- A pre-evaluation network state whose output somatic potential is `5`:
the concrete state at which `test_weights` fails to restore layer state. -/
def preEvalNet : NetState 1 1 1 :=
  { zeroNet 1 1 1 with l1 := { zeroFinal 1 1 with C := fun _ => 5 } }

/-! ## Phase-length sampling (claim C8) -/

/-- One per-example phase length drawn by `Network.train` when
`use_rand_phase_lengths` is on:
`min_len + np.random.wald(2, 1, N).astype(int)`.  A Wald sample `w` is a
strictly positive real and `astype(int)` truncates toward zero, which for
a positive real is the floor. -/
def sampledPhaseLength (minLen : ℕ) (w : ℝ) : ℤ := minLen + ⌊w⌋

/-! ## Claim C6: kernel positivity and bounded sum -/

/-- Sum of the first `n` kernel values (sum of the `get_kappas(n)` array). -/
def kappaSum (n : ℕ) : ℝ := ∑ i : Fin n, get_kappas n i

/-- A bound for `kappaSum`, determined by `tau_L` and `tau_s` alone. -/
def kappaBound : ℝ :=
  Real.exp (-1 / tau_L) / ((1 - Real.exp (-1 / tau_L)) * (tau_L - tau_s))

theorem kappa_pos_of_pos {x : ℝ} (hx : 0 < x) : 0 < kappa x := by
  unfold kappa tau_L tau_s
  have h1 : -x / 3 < -x / 10 := by linarith
  have h2 : Real.exp (-x / 3) < Real.exp (-x / 10) := Real.exp_lt_exp.mpr h1
  have h3 : (0:ℝ) < 10 - 3 := by norm_num
  exact div_pos (by linarith) h3

theorem kappa_le_geom (i : ℕ) :
    kappa ((i : ℝ) + 1) ≤ (1 / (tau_L - tau_s)) * Real.exp (-1 / tau_L) ^ (i + 1) := by
  have hexp : Real.exp (-((i : ℝ) + 1) / tau_L) = Real.exp (-1 / tau_L) ^ (i + 1) := by
    rw [← Real.exp_nat_mul]
    congr 1
    push_cast
    unfold tau_L
    ring
  have hpos : 0 < Real.exp (-((i : ℝ) + 1) / tau_s) := Real.exp_pos _
  have h7 : (0:ℝ) < tau_L - tau_s := by unfold tau_L tau_s; norm_num
  calc kappa ((i : ℝ) + 1)
      = (Real.exp (-((i : ℝ) + 1) / tau_L) - Real.exp (-((i : ℝ) + 1) / tau_s)) /
          (tau_L - tau_s) := rfl
    _ ≤ Real.exp (-((i : ℝ) + 1) / tau_L) / (tau_L - tau_s) := by
        apply (div_le_div_right h7).mpr
        linarith
    _ = (1 / (tau_L - tau_s)) * Real.exp (-1 / tau_L) ^ (i + 1) := by
        rw [hexp]; ring

theorem kappaSum_le_bound (n : ℕ) : kappaSum n ≤ kappaBound := by
  set r : ℝ := Real.exp (-1 / tau_L) with hr
  have hr0 : 0 < r := Real.exp_pos _
  have hr1 : r < 1 := by
    rw [hr]
    apply Real.exp_lt_one_iff.mpr
    unfold tau_L
    norm_num
  have h1r : (0:ℝ) < 1 - r := by linarith
  have h7 : (0:ℝ) < tau_L - tau_s := by unfold tau_L tau_s; norm_num
  have hgeom : ∑ i ∈ Finset.range n, r ^ i ≤ 1 / (1 - r) := by
    rw [geom_sum_eq (ne_of_lt hr1) n]
    have heq : (r ^ n - 1) / (r - 1) = (1 - r ^ n) / (1 - r) := by
      rw [div_eq_div_iff (sub_ne_zero.mpr (ne_of_lt hr1)) (ne_of_gt h1r)]
      ring
    rw [heq, div_le_div_iff h1r h1r]
    have hpow : (0:ℝ) ≤ r ^ n := (pow_pos hr0 n).le
    nlinarith
  have hsum : kappaSum n = ∑ i ∈ Finset.range n, kappa ((i : ℝ) + 1) :=
    Fin.sum_univ_eq_sum_range (fun j : ℕ => kappa ((j : ℝ) + 1)) n
  have hfact : ∀ a b : ℝ, a * (b * ∑ i ∈ Finset.range n, r ^ i) =
      ∑ i ∈ Finset.range n, a * (b * r ^ i) := by
    intro a b
    rw [Finset.mul_sum, Finset.mul_sum]
  have hstep : kappaSum n ≤ (1 / (tau_L - tau_s)) * (r * ∑ i ∈ Finset.range n, r ^ i) := by
    rw [hsum]
    calc ∑ i ∈ Finset.range n, kappa ((i : ℝ) + 1)
        ≤ ∑ i ∈ Finset.range n, (1 / (tau_L - tau_s)) * r ^ (i + 1) :=
          Finset.sum_le_sum fun i _ => kappa_le_geom i
      _ = ∑ i ∈ Finset.range n, (1 / (tau_L - tau_s)) * (r * r ^ i) :=
          Finset.sum_congr rfl fun i _ => by ring
      _ = (1 / (tau_L - tau_s)) * (r * ∑ i ∈ Finset.range n, r ^ i) := (hfact _ _).symm
  have hbound_eq : (1 / (tau_L - tau_s)) * (r * (1 / (1 - r))) = kappaBound := by
    unfold kappaBound
    rw [← hr]
    simp only [div_eq_mul_inv, mul_inv, one_div]
    ring
  calc kappaSum n
      ≤ (1 / (tau_L - tau_s)) * (r * ∑ i ∈ Finset.range n, r ^ i) := hstep
    _ ≤ (1 / (tau_L - tau_s)) * (r * (1 / (1 - r))) := by
        apply mul_le_mul_of_nonneg_left _ (by positivity)
        exact mul_le_mul_of_nonneg_left hgeom hr0.le
    _ = kappaBound := hbound_eq

/-- Claim C6: for every memory-window length `n ≥ 1`, every kernel value in
`get_kappas(n)` (that is, `kappa(x)` for `x` in `1..n`, with
`tau_L = 10`, `tau_s = 3`) is strictly positive, and the sum of the `n`
kernel values is bounded above by `kappaBound`, a constant determined by
`tau_L` and `tau_s` and independent of `n`. -/
theorem C6_kernel_pos_and_bounded (n : ℕ) (hn : 1 ≤ n) :
    (∀ i : Fin n, 0 < get_kappas n i) ∧ kappaSum n ≤ kappaBound := by
  refine ⟨fun i => ?_, kappaSum_le_bound n⟩
  apply kappa_pos_of_pos
  positivity

/-- Witness for C6 at the concrete window length `n = mem = 10`. -/
theorem C6_witness :
    1 ≤ 10 ∧ ((∀ i : Fin 10, 0 < get_kappas 10 i) ∧ kappaSum 10 ≤ kappaBound) :=
  ⟨by norm_num, C6_kernel_pos_and_bounded 10 (by norm_num)⟩

/-! ## Claim C8: random phase lengths respect the configured minimum -/

/-- Claim C8: every phase length drawn from the shifted, truncated Wald
distribution is at least the configured minimum (`min_l_f_phase` for
forward phases and `min_l_t_phase` for target phases), given that the Wald
sample is strictly positive. -/
theorem C8_phase_length_ge_min (w : ℝ) (hw : 0 < w) :
    (min_l_f_phase : ℤ) ≤ sampledPhaseLength min_l_f_phase w ∧
      (min_l_t_phase : ℤ) ≤ sampledPhaseLength min_l_t_phase w := by
  have hfloor : (0:ℤ) ≤ ⌊w⌋ := Int.floor_nonneg.mpr hw.le
  constructor <;> · unfold sampledPhaseLength; omega

/-- Witness for C8 at the concrete Wald sample `w = 1/2`. -/
theorem C8_witness :
    (0:ℝ) < 1/2 ∧
      ((min_l_f_phase : ℤ) ≤ sampledPhaseLength min_l_f_phase (1/2) ∧
        (min_l_t_phase : ℤ) ≤ sampledPhaseLength min_l_t_phase (1/2)) :=
  ⟨by norm_num, C8_phase_length_ge_min (1/2) (by norm_num)⟩

/-! ## Projection lemmas for the step functions -/

theorem f_phase_step_wts {nIn n0 n1 : ℕ} (d : Draws nIn n0 n1) (c : Bool)
    (st : NetState nIn n0 n1) : (Network.f_phase_step d c st).wts = st.wts := rfl

theorem t_out_step_wts {nIn n0 n1 : ℕ} (d : Draws nIn n0 n1) (tg : Fin n1 → ℝ)
    (c : Bool) (st : NetState nIn n0 n1) :
    (Network.t_out_step d tg c st).wts = st.wts := rfl

theorem f_phase_run_wts {nIn n0 n1 : ℕ} (lf : ℕ) (d : ℕ → Draws nIn n0 n1) :
    ∀ (k : ℕ) (st : NetState nIn n0 n1),
      (Network.f_phase_run lf d k st).wts = st.wts := by
  intro k
  induction k with
  | zero => intro st; rfl
  | succ k ih =>
    intro st
    calc (Network.f_phase_step (d k) (decide (k = lf - 1))
            (Network.f_phase_run lf d k st)).wts
        = (Network.f_phase_run lf d k st).wts := f_phase_step_wts _ _ _
      _ = st.wts := ih st

theorem test_example_wts {nIn n0 n1 : ℕ} (d : ℕ → Draws nIn n0 n1)
    (st : NetState nIn n0 n1) : (Network.test_example d st).wts = st.wts := by
  unfold Network.test_example Network.f_phase
  rw [f_phase_run_wts]

/-! ## Claim C3: `test_weights` leaves all learned weights unchanged -/

/-- Claim C3: for any number of test examples (any list of per-example
draw streams), `Network.test_weights` leaves every learned weight matrix
`W[m]`, feedback weight matrix `Y[m]`, bias `b[m]` and feedback bias
`c[m]` equal to its pre-call value: the whole `Weights` record is
preserved. -/
theorem C3_test_weights_preserves_weights {nIn n0 n1 : ℕ}
    (ds : List (ℕ → Draws nIn n0 n1)) (st : NetState nIn n0 n1) :
    (Network.test_weights ds st).wts = st.wts := by
  unfold Network.test_weights
  suffices h : ∀ st2 : NetState nIn n0 n1,
      (ds.foldl (fun acc d => Network.test_example d acc) st2).wts = st2.wts by
    exact h st
  induction ds with
  | nil => intro st2; rfl
  | cons d ds ih =>
    intro st2
    rw [List.foldl_cons]
    rw [ih, test_example_wts]

/-! ## Claim C10: the somatic update is independent of the apical potential
when the apical conductance is off -/

/-- Claim C10: with `use_apical_conductance` disabled (`g_A = 0`), and
likewise in the non-conductance mode, `hiddenLayer.update_C` depends only
on the prior somatic potential `C` and the basal potential `B`: two states
agreeing on `B` and `C` but with arbitrary apical potentials `A` produce
the same somatic potential and the same spike rate `phi_C`. -/
theorem C10_somatic_ignores_apical {nIn n0 n1 : ℕ}
    (s1 s2 : HiddenState n0 nIn n1) (hB : s1.B = s2.B) (hC : s1.C = s2.C) :
    ((hiddenLayer.update_C true false s1).C = (hiddenLayer.update_C true false s2).C ∧
      (hiddenLayer.update_C true false s1).phi_C =
        (hiddenLayer.update_C true false s2).phi_C) ∧
    ((hiddenLayer.update_C false false s1).C = (hiddenLayer.update_C false false s2).C ∧
      (hiddenLayer.update_C false false s1).phi_C =
        (hiddenLayer.update_C false false s2).phi_C) := by
  have h1 : (hiddenLayer.update_C true false s1).C =
      (hiddenLayer.update_C true false s2).C := by
    show (fun i => s1.C i + (-g_L * s1.C i + g_B * (s1.B i - s1.C i)) * dt)
        = fun i => s2.C i + (-g_L * s2.C i + g_B * (s2.B i - s2.C i)) * dt
    rw [hB, hC]
  have h2 : (hiddenLayer.update_C false false s1).C =
      (hiddenLayer.update_C false false s2).C := by
    show (fun i => kB_of false * s1.B i) = fun i => kB_of false * s2.B i
    rw [hB]
  refine ⟨⟨h1, ?_⟩, ⟨h2, ?_⟩⟩
  · show (fun i => phi ((hiddenLayer.update_C true false s1).C i))
        = fun i => phi ((hiddenLayer.update_C true false s2).C i)
    rw [h1]
  · show (fun i => phi ((hiddenLayer.update_C false false s1).C i))
        = fun i => phi ((hiddenLayer.update_C false false s2).C i)
    rw [h2]

/-- Witness for C10: two concrete states differing only in the apical
potential produce the same somatic potential. -/
theorem C10_witness :
    (zeroHidden 1 1 1).B = ({ zeroHidden 1 1 1 with A := fun _ => 1 }).B ∧
    (zeroHidden 1 1 1).C = ({ zeroHidden 1 1 1 with A := fun _ => 1 }).C ∧
    (hiddenLayer.update_C true false (zeroHidden 1 1 1)).C =
      (hiddenLayer.update_C true false ({ zeroHidden 1 1 1 with A := fun _ => 1 })).C :=
  ⟨rfl, rfl,
    (C10_somatic_ignores_apical (zeroHidden 1 1 1)
      { zeroHidden 1 1 1 with A := fun _ => 1 } rfl rfl).1.1⟩

/-! ## Claim C7: basal and apical potentials -/

theorem hidden_out_f_B {nIn n0 n1 : ℕ} (wts : Weights nIn n0 n1)
    (f : Fin nIn → Fin mem → ℝ) (b : Fin n1 → Fin mem → ℝ) (dr : Fin n0 → ℝ)
    (c : Bool) (s : HiddenState n0 nIn n1) :
    (hiddenLayer.out_f wts f b dr c s).B =
      fun i => (∑ j, wts.W0 i j * pspOf f j) + wts.b0 i := by
  cases c <;> rfl

theorem hidden_out_f_A {nIn n0 n1 : ℕ} (wts : Weights nIn n0 n1)
    (f : Fin nIn → Fin mem → ℝ) (b : Fin n1 → Fin mem → ℝ) (dr : Fin n0 → ℝ)
    (c : Bool) (s : HiddenState n0 nIn n1) :
    (hiddenLayer.out_f wts f b dr c s).A =
      fun i => (∑ j, wts.Y0 i j * pspOf b j) + wts.c0 i := by
  cases c <;> rfl

theorem hidden_out_t_B {nIn n0 n1 : ℕ} (wts : Weights nIn n0 n1)
    (f : Fin nIn → Fin mem → ℝ) (b : Fin n1 → Fin mem → ℝ) (dr : Fin n0 → ℝ)
    (c : Bool) (s : HiddenState n0 nIn n1) :
    (hiddenLayer.out_t wts f b dr c s).B =
      fun i => (∑ j, wts.W0 i j * pspOf f j) + wts.b0 i := by
  cases c <;> rfl

theorem hidden_out_t_A {nIn n0 n1 : ℕ} (wts : Weights nIn n0 n1)
    (f : Fin nIn → Fin mem → ℝ) (b : Fin n1 → Fin mem → ℝ) (dr : Fin n0 → ℝ)
    (c : Bool) (s : HiddenState n0 nIn n1) :
    (hiddenLayer.out_t wts f b dr c s).A =
      fun i => (∑ j, wts.Y0 i j * pspOf b j) + wts.c0 i := by
  cases c <;> rfl

/-- Claim C7: at every timestep of either phase, the hidden layer's basal
potential satisfies `B = W[m]·PSP_forward + b[m]` and its apical potential
satisfies `A = Y[m]·PSP_feedback + c[m]`, where the PSP is the kernel
inner product of the spike history under spiking signalling (as in the
driver steps, whose forward input is the freshly pushed input history and
whose feedback input is the output layer's spike history) and the raw
input vector in the non-spiking configuration. -/
theorem C7_basal_apical_potentials {nIn n0 n1 : ℕ} (wts : Weights nIn n0 n1)
    (f : Fin nIn → Fin mem → ℝ) (b : Fin n1 → Fin mem → ℝ) (dr : Fin n0 → ℝ)
    (c : Bool) (s : HiddenState n0 nIn n1) (fr : Fin nIn → ℝ) (br : Fin n1 → ℝ)
    (d : Draws nIn n0 n1) (tg : Fin n1 → ℝ) (st : NetState nIn n0 n1) :
    ((hiddenLayer.out_f wts f b dr c s).B =
        fun i => (∑ j, wts.W0 i j * pspOf f j) + wts.b0 i) ∧
    ((hiddenLayer.out_f wts f b dr c s).A =
        fun i => (∑ j, wts.Y0 i j * pspOf b j) + wts.c0 i) ∧
    ((hiddenLayer.out_t wts f b dr c s).B =
        fun i => (∑ j, wts.W0 i j * pspOf f j) + wts.b0 i) ∧
    ((hiddenLayer.out_t wts f b dr c s).A =
        fun i => (∑ j, wts.Y0 i j * pspOf b j) + wts.c0 i) ∧
    ((hiddenLayer.update_B_rate wts fr s).B =
        fun i => (∑ j, wts.W0 i j * fr j) + wts.b0 i) ∧
    ((hiddenLayer.update_A_rate wts br s).A =
        fun i => (∑ j, wts.Y0 i j * br j) + wts.c0 i) ∧
    ((Network.f_phase_step d c st).l0.B =
        fun i => (∑ j, st.wts.W0 i j * pspOf (shiftAppend st.x_hist d.x) j) +
          st.wts.b0 i) ∧
    ((Network.f_phase_step d c st).l0.A =
        fun i => (∑ j, st.wts.Y0 i j * pspOf st.l1.S_hist j) + st.wts.c0 i) ∧
    ((Network.t_out_step d tg c st).l0.B =
        fun i => (∑ j, st.wts.W0 i j * pspOf (shiftAppend st.x_hist d.x) j) +
          st.wts.b0 i) ∧
    ((Network.t_out_step d tg c st).l0.A =
        fun i => (∑ j, st.wts.Y0 i j * pspOf st.l1.S_hist j) + st.wts.c0 i) :=
  ⟨hidden_out_f_B wts f b dr c s, hidden_out_f_A wts f b dr c s,
    hidden_out_t_B wts f b dr c s, hidden_out_t_A wts f b dr c s,
    rfl, rfl,
    hidden_out_f_B st.wts _ _ _ c st.l0, hidden_out_f_A st.wts _ _ _ c st.l0,
    hidden_out_t_B st.wts _ _ _ c st.l0, hidden_out_t_A st.wts _ _ _ c st.l0⟩

/-! ## Claim C5: the terminal layer's weight update -/

/-- Claim C5: whenever `finalLayer.update_W` runs, its local error is
`E = (target-phase average spike rate - phi(forward-phase average somatic
potential)) * -k_D * deriv_phi(forward-phase average somatic potential)`
(the target-phase average spike rate being the mean of the spike-rate
history buffer `np.mean(phi_C_hist)`), its weight delta is the outer
product of `E` with the forward-phase average presynaptic PSP
`average_PSP_B_f`, and the entries selected by the burst mask change by
exactly `-f_eta * P_final * delta` while the other entries are unchanged. -/
theorem C5_final_update_W {nIn n0 n1 : ℕ} (f_eta : ℝ) (bmask : Fin n1 → Bool)
    (st : NetState nIn n0 n1) :
    ((Network.final_update_W f_eta bmask st).l1.E =
      fun i => (meanH st.l1.phi_C_hist i - phi (st.l1.average_C_f i)) * -k_D *
        deriv_phi (st.l1.average_C_f i)) ∧
    ((Network.final_update_W f_eta bmask st).l1.delta_W =
      fun i j => (Network.final_update_W f_eta bmask st).l1.E i *
        st.l1.average_PSP_B_f j) ∧
    ((Network.final_update_W f_eta bmask st).l1.delta_b =
      (Network.final_update_W f_eta bmask st).l1.E) ∧
    ((Network.final_update_W f_eta bmask st).wts.W1 = fun i j =>
      if bmask i then
        st.wts.W1 i j - f_eta * P_final *
          ((Network.final_update_W f_eta bmask st).l1.E i * st.l1.average_PSP_B_f j)
      else st.wts.W1 i j) ∧
    ((Network.final_update_W f_eta bmask st).wts.b1 = fun i =>
      if bmask i then
        st.wts.b1 i - f_eta * P_final * (Network.final_update_W f_eta bmask st).l1.E i
      else st.wts.b1 i) := by
  refine ⟨rfl, rfl, rfl, ?_, ?_⟩
  · funext i j
    by_cases h : bmask i = true <;> simp [Network.final_update_W, h] <;> ring
  · funext i
    by_cases h : bmask i = true <;> simp [Network.final_update_W, h] <;> ring

/-! ## Claim C1 (amended): when weights are mutated -/

theorem hidden_update_W_W1 {nIn n0 n1 : ℕ} (f_eta : ℝ) (bmask : Fin n0 → Bool)
    (st : NetState nIn n0 n1) :
    (Network.hidden_update_W f_eta bmask st).wts.W1 = st.wts.W1 := rfl

theorem hidden_update_W_b1 {nIn n0 n1 : ℕ} (f_eta : ℝ) (bmask : Fin n0 → Bool)
    (st : NetState nIn n0 n1) :
    (Network.hidden_update_W f_eta bmask st).wts.b1 = st.wts.b1 := rfl

theorem final_update_W_W0 {nIn n0 n1 : ℕ} (f_eta : ℝ) (bmask : Fin n1 → Bool)
    (st : NetState nIn n0 n1) :
    (Network.final_update_W f_eta bmask st).wts.W0 = st.wts.W0 := rfl

theorem final_update_W_b0 {nIn n0 n1 : ℕ} (f_eta : ℝ) (bmask : Fin n1 → Bool)
    (st : NetState nIn n0 n1) :
    (Network.final_update_W f_eta bmask st).wts.b0 = st.wts.b0 := rfl

theorem final_update_W_W1_of_mask_false {nIn n0 n1 : ℕ} (f_eta : ℝ)
    (bmask : Fin n1 → Bool) (st : NetState nIn n0 n1) (i : Fin n1)
    (h : bmask i = false) :
    (Network.final_update_W f_eta bmask st).wts.W1 i = st.wts.W1 i := by
  funext j
  simp [Network.final_update_W, h]

theorem final_update_W_b1_of_mask_false {nIn n0 n1 : ℕ} (f_eta : ℝ)
    (bmask : Fin n1 → Bool) (st : NetState nIn n0 n1) (i : Fin n1)
    (h : bmask i = false) :
    (Network.final_update_W f_eta bmask st).wts.b1 i = st.wts.b1 i := by
  simp [Network.final_update_W, h]

theorem hidden_update_W_W0_of_mask_false {nIn n0 n1 : ℕ} (f_eta : ℝ)
    (bmask : Fin n0 → Bool) (st : NetState nIn n0 n1) (i : Fin n0)
    (h : bmask i = false) :
    (Network.hidden_update_W f_eta bmask st).wts.W0 i = st.wts.W0 i := by
  funext j
  simp [Network.hidden_update_W, h]

theorem hidden_update_W_b0_of_mask_false {nIn n0 n1 : ℕ} (f_eta : ℝ)
    (bmask : Fin n0 → Bool) (st : NetState nIn n0 n1) (i : Fin n0)
    (h : bmask i = false) :
    (Network.hidden_update_W f_eta bmask st).wts.b0 i = st.wts.b0 i := by
  simp [Network.hidden_update_W, h]

/-- Claim C1, amended: each weight row (and bias entry) of layer `m` is
assigned during the target phase only at that neuron's burst timestep
`burst_times[m]`, which equals the final timestep when
`use_rand_burst_times` is off but may precede the phase end otherwise; at
every other timestep it is unchanged, no timestep of forward or target
propagation (`out_f`/`out_t`) itself changes any weight, and the feedback
weights `Y` and feedback bias `c` are never changed by a target-phase
timestep (`upd_b_weights = False`). -/
theorem C1_weight_mutation_timing {nIn n0 n1 : ℕ} (eta0 eta1 : ℝ)
    (burst0 : Fin n0 → ℕ) (burst1 : Fin n1 → ℕ) (lt time : ℕ)
    (tg : Fin n1 → ℝ) (d : Draws nIn n0 n1) (c : Bool) (st : NetState nIn n0 n1) :
    ((Network.f_phase_step d c st).wts = st.wts) ∧
    ((Network.t_out_step d tg c st).wts = st.wts) ∧
    (∀ i : Fin n1, time ≠ burst1 i →
      (Network.t_phase_step eta0 eta1 burst0 burst1 lt tg d time st).wts.W1 i =
          st.wts.W1 i ∧
        (Network.t_phase_step eta0 eta1 burst0 burst1 lt tg d time st).wts.b1 i =
          st.wts.b1 i) ∧
    (∀ i : Fin n0, time ≠ burst0 i →
      (Network.t_phase_step eta0 eta1 burst0 burst1 lt tg d time st).wts.W0 i =
          st.wts.W0 i ∧
        (Network.t_phase_step eta0 eta1 burst0 burst1 lt tg d time st).wts.b0 i =
          st.wts.b0 i) ∧
    ((Network.t_phase_step eta0 eta1 burst0 burst1 lt tg d time st).wts.Y0 =
      st.wts.Y0) ∧
    ((Network.t_phase_step eta0 eta1 burst0 burst1 lt tg d time st).wts.c0 =
      st.wts.c0) := by
  refine ⟨rfl, rfl, ?_, ?_, rfl, rfl⟩
  · intro i hi
    have hm : decide (time = burst1 i) = false := decide_eq_false hi
    unfold Network.t_phase_step
    rw [hidden_update_W_W1, hidden_update_W_b1]
    rw [final_update_W_W1_of_mask_false _ _ _ _ hm,
      final_update_W_b1_of_mask_false _ _ _ _ hm]
    exact ⟨congrFun (congrArg Weights.W1 (t_out_step_wts d tg _ st)) i,
      congrFun (congrArg Weights.b1 (t_out_step_wts d tg _ st)) i⟩
  · intro i hi
    have hm : decide (time = burst0 i) = false := decide_eq_false hi
    unfold Network.t_phase_step
    rw [hidden_update_W_W0_of_mask_false _ _ _ _ hm,
      hidden_update_W_b0_of_mask_false _ _ _ _ hm]
    rw [final_update_W_W0, final_update_W_b0]
    exact ⟨congrFun (congrArg Weights.W0 (t_out_step_wts d tg _ st)) i,
      congrFun (congrArg Weights.b0 (t_out_step_wts d tg _ st)) i⟩

/-- Witness for the amended C1 at a concrete timestep that is not a burst
time: the weights are untouched. -/
theorem C1_witness :
    (0 : ℕ) ≠ cexBurst1 0 ∧
      ((Network.t_phase_step 1 1 cexBurst0 cexBurst1 50 cexTarget
          (zeroDraws 1 1 10 0) 0 cexNet).wts.W1 0 = cexNet.wts.W1 0 ∧
        (Network.t_phase_step 1 1 cexBurst0 cexBurst1 50 cexTarget
          (zeroDraws 1 1 10 0) 0 cexNet).wts.b1 0 = cexNet.wts.b1 0) :=
  ⟨by decide,
    (C1_weight_mutation_timing 1 1 cexBurst0 cexBurst1 50 0 cexTarget
      (zeroDraws 1 1 10 0) false cexNet).2.2.1 0 (by decide)⟩

/-! ## Claim C1 (counterexample): a weight is mutated before the phase end -/

theorem phi_lt_phi {x y : ℝ} (h : x < y) : phi x < phi y := by
  unfold phi
  have h1 : Real.exp (-y) < Real.exp (-x) := Real.exp_lt_exp.mpr (by linarith)
  have h2 : 0 < 1 + Real.exp (-y) := by positivity
  have h3 : 0 < phi_max := by norm_num [phi_max, dt]
  apply div_lt_div_of_pos_left h3 h2
  linarith

theorem final_out_t_C {nIn n0 n1 : ℕ} (wts : Weights nIn n0 n1)
    (f : Fin n0 → Fin mem → ℝ) (tg : Fin n1 → ℝ) (dr : Fin n1 → ℝ) (c : Bool)
    (s : FinalState n1 n0) :
    (finalLayer.out_t wts f tg dr c s).C = fun i =>
      s.C i + (-g_L * s.C i +
        g_D * ((∑ j, wts.W1 i j * pspOf f j) + wts.b1 i - s.C i) +
        (tg i * (E_E - s.C i) + (-tg i + 1) * (E_I - s.C i))) * dt := by
  cases c <;> rfl

theorem final_out_t_phi_C_hist {nIn n0 n1 : ℕ} (wts : Weights nIn n0 n1)
    (f : Fin n0 → Fin mem → ℝ) (tg : Fin n1 → ℝ) (dr : Fin n1 → ℝ) (c : Bool)
    (s : FinalState n1 n0) :
    (finalLayer.out_t wts f tg dr c s).phi_C_hist =
      writeCol s.phi_C_hist (s.integration_counter % integration_time)
        (fun i => phi ((finalLayer.out_t wts f tg dr c s).C i)) := by
  cases c <;> rfl

theorem final_out_t_average_C_f {nIn n0 n1 : ℕ} (wts : Weights nIn n0 n1)
    (f : Fin n0 → Fin mem → ℝ) (tg : Fin n1 → ℝ) (dr : Fin n1 → ℝ) (c : Bool)
    (s : FinalState n1 n0) :
    (finalLayer.out_t wts f tg dr c s).average_C_f = s.average_C_f := by
  cases c <;> rfl

theorem final_out_t_average_PSP_B_f {nIn n0 n1 : ℕ} (wts : Weights nIn n0 n1)
    (f : Fin n0 → Fin mem → ℝ) (tg : Fin n1 → ℝ) (dr : Fin n1 → ℝ) (c : Bool)
    (s : FinalState n1 n0) :
    (finalLayer.out_t wts f tg dr c s).average_PSP_B_f = s.average_PSP_B_f := by
  cases c <;> rfl

theorem cexInv_out (d : Draws 1 1 10) (c : Bool) {st : NetState 1 1 10}
    (h : cexInv st) : cexInv (Network.t_out_step d cexTarget c st) := by
  obtain ⟨hW1, hb1, hC, hHist, hACf, hAPf⟩ := h
  have hCfin : (finalLayer.out_t st.wts
      (hiddenLayer.out_t st.wts (shiftAppend st.x_hist d.x) st.l1.S_hist d.s0 c
        st.l0).S_hist cexTarget d.s1 c st.l1).C = fun _ => 1 := by
    rw [final_out_t_C]
    funext i
    simp only [hW1, hb1, hC]
    by_cases hi : i = 0
    · simp [hi, cexTarget, cexB1]
      norm_num [g_L, g_D, g_B, tau_L, dt, E_E, E_I]
    · simp [hi, cexTarget, cexB1]
      norm_num [g_L, g_D, g_B, tau_L, dt, E_E, E_I]
  have hHfin : (finalLayer.out_t st.wts
      (hiddenLayer.out_t st.wts (shiftAppend st.x_hist d.x) st.l1.S_hist d.s0 c
        st.l0).S_hist cexTarget d.s1 c st.l1).phi_C_hist = fun _ _ => phi 1 := by
    rw [final_out_t_phi_C_hist, hCfin, hHist]
    funext i j
    unfold writeCol
    split <;> rfl
  refine ⟨hW1, hb1, hCfin, hHfin, ?_, ?_⟩
  · rw [show (Network.t_out_step d cexTarget c st).l1.average_C_f =
      st.l1.average_C_f from final_out_t_average_C_f _ _ _ _ _ _]
    exact hACf
  · rw [show (Network.t_out_step d cexTarget c st).l1.average_PSP_B_f =
      st.l1.average_PSP_B_f from final_out_t_average_PSP_B_f _ _ _ _ _ _]
    exact hAPf

theorem cexInv_updW (time : ℕ) (h34 : time ≠ 34) {st : NetState 1 1 10}
    (h : cexInv st) :
    cexInv (Network.hidden_update_W 1 (fun i => decide (time = cexBurst0 i))
      (Network.final_update_W 1 (fun i => decide (time = cexBurst1 i)) st)) := by
  obtain ⟨hW1, hb1, hC, hHist, hACf, hAPf⟩ := h
  have hmask : ∀ i : Fin 10, (fun i : Fin 10 => decide (time = cexBurst1 i)) i = false :=
    fun i => decide_eq_false h34
  refine ⟨?_, ?_, hC, hHist, hACf, hAPf⟩
  · funext i j
    rw [show (Network.hidden_update_W 1 (fun i => decide (time = cexBurst0 i))
        (Network.final_update_W 1 (fun i => decide (time = cexBurst1 i)) st)).wts.W1
      = (Network.final_update_W 1 (fun i => decide (time = cexBurst1 i)) st).wts.W1
      from rfl]
    rw [congrFun (final_update_W_W1_of_mask_false 1 _ st i (hmask i)) j]
    exact congrFun (congrFun hW1 i) j
  · funext i
    rw [show (Network.hidden_update_W 1 (fun i => decide (time = cexBurst0 i))
        (Network.final_update_W 1 (fun i => decide (time = cexBurst1 i)) st)).wts.b1
      = (Network.final_update_W 1 (fun i => decide (time = cexBurst1 i)) st).wts.b1
      from rfl]
    rw [final_update_W_b1_of_mask_false 1 _ st i (hmask i)]
    exact congrFun hb1 i

theorem cexInv_run : ∀ k, k ≤ 34 →
    cexInv (Network.t_phase_run 1 1 cexBurst0 cexBurst1 50 cexTarget
      (zeroDraws 1 1 10) k cexNet) := by
  intro k
  induction k with
  | zero => intro _; exact ⟨rfl, rfl, rfl, rfl, rfl, rfl⟩
  | succ k ih =>
    intro hk
    have hk' : k ≤ 34 := by omega
    have hne : k ≠ 34 := by omega
    exact cexInv_updW k hne (cexInv_out (zeroDraws 1 1 10 k) (decide (k = 50 - 1))
      (ih hk'))

/-- Counterexample to claim C1 as stated: with burst times reachable under
`use_rand_burst_times` (all output units bursting at timestep
`34 = l_t_phase - 1 - 15`), the output bias `b[-1]` already differs from
its pre-phase value after the first `35` of the `l_t_phase = 50` target
timesteps, so the weights are mutated strictly before the end of the
target phase and are not read-only during phase propagation (the remaining
fifteen `out_t` timesteps read the updated weights). -/
theorem C1_counterexample :
    (Network.t_phase_run 1 1 cexBurst0 cexBurst1 50 cexTarget (zeroDraws 1 1 10)
        35 cexNet).wts.b1 0 ≠ cexNet.wts.b1 0 ∧ 35 < l_t_phase := by
  constructor
  · have hInv34 := cexInv_run 34 (le_refl 34)
    have hInv1 : cexInv (Network.t_out_step (zeroDraws 1 1 10 34) cexTarget
        (decide (34 = 50 - 1))
        (Network.t_phase_run 1 1 cexBurst0 cexBurst1 50 cexTarget
          (zeroDraws 1 1 10) 34 cexNet)) :=
      cexInv_out (zeroDraws 1 1 10 34) (decide (34 = 50 - 1)) hInv34
    set st1 := Network.t_out_step (zeroDraws 1 1 10 34) cexTarget
      (decide (34 = 50 - 1))
      (Network.t_phase_run 1 1 cexBurst0 cexBurst1 50 cexTarget
        (zeroDraws 1 1 10) 34 cexNet) with hst1
    obtain ⟨hW1, hb1, hC, hHist, hACf, hAPf⟩ := hInv1
    have hml : meanH st1.l1.phi_C_hist 0 = phi 1 := by
      rw [hHist]
      simp [meanH, Finset.sum_const, Finset.card_univ]
      norm_num [integration_time]
    have hrun : (Network.t_phase_run 1 1 cexBurst0 cexBurst1 50 cexTarget
          (zeroDraws 1 1 10) 35 cexNet).wts.b1 0
        = st1.wts.b1 0 + -1 * P_final *
          ((meanH st1.l1.phi_C_hist 0 - phi (st1.l1.average_C_f 0)) * -k_D *
            deriv_phi (st1.l1.average_C_f 0)) := by
      rw [show (Network.t_phase_run 1 1 cexBurst0 cexBurst1 50 cexTarget
          (zeroDraws 1 1 10) 35 cexNet)
        = Network.hidden_update_W 1 (fun i => decide (34 = cexBurst0 i))
            (Network.final_update_W 1 (fun i => decide (34 = cexBurst1 i)) st1)
        from rfl]
      rw [hidden_update_W_b1]
      simp [Network.final_update_W, cexBurst1]
    have hphi0 : phi 0 = 1/10 := by
      simp [phi, phi_max, dt, Real.exp_zero]
      norm_num
    have hdphi0 : deriv_phi 0 = 1/20 := by
      simp [deriv_phi, phi_max, dt, Real.exp_zero]
      norm_num
    have hkD : k_D = 6/7 := by norm_num [k_D, g_D, g_B, g_L, tau_L]
    have hPf : P_final = 500 := by norm_num [P_final, phi_max, dt]
    have hphi01 : phi 0 < phi 1 := phi_lt_phi (by norm_num)
    rw [hrun, hml, show st1.l1.average_C_f 0 = 0 from congrFun hACf 0,
      congrFun hb1 0, show cexNet.wts.b1 0 = cexB1 0 from rfl,
      hphi0, hdphi0, hkD, hPf]
    have hphi1 : 1/10 < phi 1 := hphi0 ▸ hphi01
    have hpos : (0:ℝ) < -1 * 500 * ((phi 1 - 1/10) * -(6/7) * (1/20)) := by
      nlinarith [hphi1]
    exact ne_of_gt (lt_add_of_pos_right (cexB1 0) hpos)
  · norm_num [l_t_phase]

/-! ## Claim C2: phase averages

The ring-buffer lemmas: after `L ≥ integration_time` writes the buffer
holds exactly the last `integration_time` written values, so the mean the
layer takes at the last phase timestep is the time-mean over exactly the
final `integration_time` timesteps of that phase. -/

theorem ringFoldT_entry (v : ℕ → ℝ) (h : Fin integration_time → ℝ) :
    ∀ (L : ℕ) (j : Fin integration_time), (j : ℕ) < L →
      ringFoldT v h L j =
        v ((j : ℕ) + integration_time * ((L - 1 - (j : ℕ)) / integration_time)) := by
  intro L
  induction L with
  | zero => intro j hj; exact absurd hj (Nat.not_lt_zero _)
  | succ L ih =>
    intro j hj
    have hj20 : (j : ℕ) < 20 := j.isLt
    have hj1 : (j : ℕ) < L + 1 := hj
    show (if (j : ℕ) = L % 20 then v L else ringFoldT v h L j)
      = v ((j : ℕ) + 20 * ((L + 1 - 1 - (j : ℕ)) / 20))
    by_cases hcase : (j : ℕ) = L % 20
    · rw [if_pos hcase]
      congr 1
      omega
    · rw [if_neg hcase]
      by_cases hjL : (j : ℕ) < L
      · rw [ih j hjL]
        congr 1
        show (j : ℕ) + 20 * ((L - 1 - (j : ℕ)) / 20)
            = (j : ℕ) + 20 * ((L + 1 - 1 - (j : ℕ)) / 20)
        omega
      · exfalso
        omega

theorem ringFoldT_sum (v : ℕ → ℝ) (h : Fin integration_time → ℝ) (L : ℕ)
    (hL : integration_time ≤ L) :
    ∑ j, ringFoldT v h L j = ∑ t ∈ Finset.Ico (L - integration_time) L, v t := by
  have hL20 : 20 ≤ L := hL
  have hstep : ∀ j : Fin integration_time, ringFoldT v h L j =
      v ((j : ℕ) + integration_time * ((L - 1 - (j : ℕ)) / integration_time)) :=
    fun j => ringFoldT_entry v h L j (lt_of_lt_of_le j.isLt hL)
  rw [Finset.sum_congr rfl fun j _ => hstep j]
  apply Finset.sum_nbij'
    (fun j : Fin integration_time =>
      (j : ℕ) + integration_time * ((L - 1 - (j : ℕ)) / integration_time))
    (fun t : ℕ => (⟨t % integration_time,
      Nat.mod_lt t (by norm_num [integration_time])⟩ : Fin integration_time))
  · intro a _
    simp only [Finset.mem_Ico]
    have ha : (a : ℕ) < 20 := a.isLt
    show L - 20 ≤ (a : ℕ) + 20 * ((L - 1 - (a : ℕ)) / 20) ∧
      (a : ℕ) + 20 * ((L - 1 - (a : ℕ)) / 20) < L
    omega
  · intro t _
    exact Finset.mem_univ _
  · intro a _
    have ha : (a : ℕ) < 20 := a.isLt
    apply Fin.ext
    show ((a : ℕ) + 20 * ((L - 1 - (a : ℕ)) / 20)) % 20 = (a : ℕ)
    omega
  · intro t ht
    simp only [Finset.mem_Ico] at ht
    have ht1 : L - 20 ≤ t := ht.1
    have ht2 : t < L := ht.2
    show (t % 20) + 20 * ((L - 1 - t % 20) / 20) = t
    omega
  · intro a _
    rfl

theorem f_run_cnt_generic {nIn n0 n1 : ℕ} (lf : ℕ) (d : ℕ → Draws nIn n0 n1)
    (cnt : NetState nIn n0 n1 → ℕ)
    (hcnt : ∀ (D : Draws nIn n0 n1) (c : Bool) (s : NetState nIn n0 n1),
      cnt (Network.f_phase_step D c s) = (cnt s + 1) % integration_time)
    (st : NetState nIn n0 n1) (hc : cnt st = 0) :
    ∀ k, cnt (Network.f_phase_run lf d k st) = k % integration_time := by
  intro k
  induction k with
  | zero =>
    show cnt st = 0 % integration_time
    rw [hc]
    show 0 = 0 % 20
    omega
  | succ k ih =>
    show cnt (Network.f_phase_step (d k) (decide (k = lf - 1))
        (Network.f_phase_run lf d k st)) = (k + 1) % integration_time
    rw [hcnt, ih]
    show (k % 20 + 1) % 20 = (k + 1) % 20
    omega

theorem f_run_hist_generic {nIn n0 n1 kk : ℕ} (lf : ℕ) (d : ℕ → Draws nIn n0 n1)
    (hist : NetState nIn n0 n1 → Fin kk → Fin integration_time → ℝ)
    (val : NetState nIn n0 n1 → Fin kk → ℝ)
    (cnt : NetState nIn n0 n1 → ℕ)
    (hstep : ∀ (D : Draws nIn n0 n1) (c : Bool) (s : NetState nIn n0 n1),
      hist (Network.f_phase_step D c s) =
        fun (i : Fin kk) (j : Fin integration_time) =>
          if (j : ℕ) = cnt s % integration_time % integration_time
          then val (Network.f_phase_step D c s) i else hist s i j)
    (hcnt : ∀ (D : Draws nIn n0 n1) (c : Bool) (s : NetState nIn n0 n1),
      cnt (Network.f_phase_step D c s) = (cnt s + 1) % integration_time)
    (st : NetState nIn n0 n1) (hc : cnt st = 0) :
    ∀ k, hist (Network.f_phase_run lf d k st) =
      fun i => ringFoldT (fun t => val (Network.f_phase_run lf d (t + 1) st) i)
        (hist st i) k := by
  intro k
  induction k with
  | zero => funext i; rfl
  | succ k ih =>
    have hcrun := f_run_cnt_generic lf d cnt hcnt st hc k
    have hmm : k % integration_time % integration_time = k % integration_time := by
      show k % 20 % 20 = k % 20
      omega
    show hist (Network.f_phase_step (d k) (decide (k = lf - 1))
        (Network.f_phase_run lf d k st)) = _
    rw [hstep, hcrun, hmm, hmm, ih]
    rfl

theorem f_step_l1_C_hist {nIn n0 n1 : ℕ} (D : Draws nIn n0 n1) (c : Bool)
    (s : NetState nIn n0 n1) :
    (Network.f_phase_step D c s).l1.C_hist =
      fun (i : Fin n1) (j : Fin integration_time) =>
      if (j : ℕ) = s.l1.integration_counter % integration_time % integration_time
      then (Network.f_phase_step D c s).l1.C i else s.l1.C_hist i j := by
  cases c <;> rfl

theorem f_step_l1_phi_C_hist {nIn n0 n1 : ℕ} (D : Draws nIn n0 n1) (c : Bool)
    (s : NetState nIn n0 n1) :
    (Network.f_phase_step D c s).l1.phi_C_hist =
      fun (i : Fin n1) (j : Fin integration_time) =>
      if (j : ℕ) = s.l1.integration_counter % integration_time % integration_time
      then (Network.f_phase_step D c s).l1.phi_C i else s.l1.phi_C_hist i j := by
  cases c <;> rfl

theorem f_step_l1_PSP_B_hist {nIn n0 n1 : ℕ} (D : Draws nIn n0 n1) (c : Bool)
    (s : NetState nIn n0 n1) :
    (Network.f_phase_step D c s).l1.PSP_B_hist =
      fun (i : Fin n0) (j : Fin integration_time) =>
      if (j : ℕ) = s.l1.integration_counter % integration_time % integration_time
      then (Network.f_phase_step D c s).l1.PSP_B i else s.l1.PSP_B_hist i j := by
  cases c <;> rfl

theorem f_step_l0_C_hist {nIn n0 n1 : ℕ} (D : Draws nIn n0 n1) (c : Bool)
    (s : NetState nIn n0 n1) :
    (Network.f_phase_step D c s).l0.C_hist =
      fun (i : Fin n0) (j : Fin integration_time) =>
      if (j : ℕ) = s.l0.integration_counter % integration_time % integration_time
      then (Network.f_phase_step D c s).l0.C i else s.l0.C_hist i j := by
  cases c <;> rfl

theorem f_step_l0_A_hist {nIn n0 n1 : ℕ} (D : Draws nIn n0 n1) (c : Bool)
    (s : NetState nIn n0 n1) :
    (Network.f_phase_step D c s).l0.A_hist =
      fun (i : Fin n0) (j : Fin integration_time) =>
      if (j : ℕ) = s.l0.integration_counter % integration_time % integration_time
      then (Network.f_phase_step D c s).l0.A i else s.l0.A_hist i j := by
  cases c <;> rfl

theorem f_step_l0_phi_C_hist {nIn n0 n1 : ℕ} (D : Draws nIn n0 n1) (c : Bool)
    (s : NetState nIn n0 n1) :
    (Network.f_phase_step D c s).l0.phi_C_hist =
      fun (i : Fin n0) (j : Fin integration_time) =>
      if (j : ℕ) = s.l0.integration_counter % integration_time % integration_time
      then (Network.f_phase_step D c s).l0.phi_C i else s.l0.phi_C_hist i j := by
  cases c <;> rfl

theorem f_step_l0_PSP_B_hist {nIn n0 n1 : ℕ} (D : Draws nIn n0 n1) (c : Bool)
    (s : NetState nIn n0 n1) :
    (Network.f_phase_step D c s).l0.PSP_B_hist =
      fun (i : Fin nIn) (j : Fin integration_time) =>
      if (j : ℕ) = s.l0.integration_counter % integration_time % integration_time
      then (Network.f_phase_step D c s).l0.PSP_B i else s.l0.PSP_B_hist i j := by
  cases c <;> rfl

theorem f_step_l1_cnt {nIn n0 n1 : ℕ} (D : Draws nIn n0 n1) (c : Bool)
    (s : NetState nIn n0 n1) :
    (Network.f_phase_step D c s).l1.integration_counter =
      (s.l1.integration_counter + 1) % integration_time := by
  cases c <;> rfl

theorem f_step_l0_cnt {nIn n0 n1 : ℕ} (D : Draws nIn n0 n1) (c : Bool)
    (s : NetState nIn n0 n1) :
    (Network.f_phase_step D c s).l0.integration_counter =
      (s.l0.integration_counter + 1) % integration_time := by
  cases c <;> rfl

theorem f_run_last_step {nIn n0 n1 : ℕ} (lf : ℕ) (d : ℕ → Draws nIn n0 n1)
    (k : ℕ) (st : NetState nIn n0 n1) (hk : k + 1 = lf) :
    Network.f_phase_run lf d (k + 1) st =
      Network.f_phase_step (d k) true (Network.f_phase_run lf d k st) := by
  have hc : decide (k = lf - 1) = true := decide_eq_true (by omega)
  show Network.f_phase_step (d k) (decide (k = lf - 1))
      (Network.f_phase_run lf d k st) = _
  rw [hc]

/-- Claim C2: (i) immediately after the phase-end reset at the end of
`Network.t_phase`, every running-average accumulator of every layer
(`average_C_f/t`, `average_A_f/t`, `average_phi_C_f/t`,
`average_PSP_B_f/t`, as each layer has them) is exactly zero; and
(ii) each forward-phase average produced for the update rule is a
time-mean accumulated over exactly `integration_time` timesteps — the
final `integration_time` timesteps of that phase only.  The source
implements the settle interval implicitly: histories are ring buffers of
width `integration_time` and the averages are taken at the last phase
timestep, so the accumulation window is
`phase_length - settle_duration = integration_time` with
`settle_duration = phase_length - integration_time`. -/
theorem C2_phase_averages {nIn n0 n1 : ℕ} (L : ℕ) (d : ℕ → Draws nIn n0 n1)
    (st : NetState nIn n0 n1) (hc0 : st.l0.integration_counter = 0)
    (hc1 : st.l1.integration_counter = 0) (hL : integration_time ≤ L) :
    ((Network.f_phase L d st).l1.average_C_f = fun i =>
      (∑ t ∈ Finset.Ico (L - integration_time) L,
        runSeq L d st (fun s => s.l1.C i) t) / (integration_time : ℝ)) ∧
    ((Network.f_phase L d st).l1.average_phi_C_f = fun i =>
      (∑ t ∈ Finset.Ico (L - integration_time) L,
        runSeq L d st (fun s => s.l1.phi_C i) t) / (integration_time : ℝ)) ∧
    ((Network.f_phase L d st).l1.average_PSP_B_f = fun i =>
      (∑ t ∈ Finset.Ico (L - integration_time) L,
        runSeq L d st (fun s => s.l1.PSP_B i) t) / (integration_time : ℝ)) ∧
    ((Network.f_phase L d st).l0.average_C_f = fun i =>
      (∑ t ∈ Finset.Ico (L - integration_time) L,
        runSeq L d st (fun s => s.l0.C i) t) / (integration_time : ℝ)) ∧
    ((Network.f_phase L d st).l0.average_A_f = fun i =>
      (∑ t ∈ Finset.Ico (L - integration_time) L,
        runSeq L d st (fun s => s.l0.A i) t) / (integration_time : ℝ)) ∧
    ((Network.f_phase L d st).l0.average_phi_C_f = fun i =>
      (∑ t ∈ Finset.Ico (L - integration_time) L,
        runSeq L d st (fun s => s.l0.phi_C i) t) / (integration_time : ℝ)) ∧
    ((Network.f_phase L d st).l0.average_PSP_B_f = fun i =>
      (∑ t ∈ Finset.Ico (L - integration_time) L,
        runSeq L d st (fun s => s.l0.PSP_B i) t) / (integration_time : ℝ)) ∧
    (∀ (eta0 eta1 : ℝ) (burst0 : Fin n0 → ℕ) (burst1 : Fin n1 → ℕ) (lt : ℕ)
      (tg : Fin n1 → ℝ) (d2 : ℕ → Draws nIn n0 n1) (st2 : NetState nIn n0 n1),
      ((Network.t_phase eta0 eta1 burst0 burst1 lt tg d2 st2).l0.average_C_f =
        fun _ => 0) ∧
      ((Network.t_phase eta0 eta1 burst0 burst1 lt tg d2 st2).l0.average_C_t =
        fun _ => 0) ∧
      ((Network.t_phase eta0 eta1 burst0 burst1 lt tg d2 st2).l0.average_A_f =
        fun _ => 0) ∧
      ((Network.t_phase eta0 eta1 burst0 burst1 lt tg d2 st2).l0.average_A_t =
        fun _ => 0) ∧
      ((Network.t_phase eta0 eta1 burst0 burst1 lt tg d2 st2).l0.average_phi_C_f =
        fun _ => 0) ∧
      ((Network.t_phase eta0 eta1 burst0 burst1 lt tg d2 st2).l0.average_PSP_B_f =
        fun _ => 0) ∧
      ((Network.t_phase eta0 eta1 burst0 burst1 lt tg d2 st2).l0.average_PSP_B_t =
        fun _ => 0) ∧
      ((Network.t_phase eta0 eta1 burst0 burst1 lt tg d2 st2).l1.average_C_f =
        fun _ => 0) ∧
      ((Network.t_phase eta0 eta1 burst0 burst1 lt tg d2 st2).l1.average_C_t =
        fun _ => 0) ∧
      ((Network.t_phase eta0 eta1 burst0 burst1 lt tg d2 st2).l1.average_phi_C_f =
        fun _ => 0) ∧
      ((Network.t_phase eta0 eta1 burst0 burst1 lt tg d2 st2).l1.average_phi_C_t =
        fun _ => 0) ∧
      ((Network.t_phase eta0 eta1 burst0 burst1 lt tg d2 st2).l1.average_PSP_B_f =
        fun _ => 0) ∧
      ((Network.t_phase eta0 eta1 burst0 burst1 lt tg d2 st2).l1.average_PSP_B_t =
        fun _ => 0)) := by
  obtain ⟨k, hk⟩ : ∃ k, k + 1 = L := ⟨L - 1, by
    have : (0:ℕ) < integration_time := by norm_num [integration_time]
    omega⟩
  subst hk
  have hrw := f_run_last_step (k + 1) d k st rfl
  refine ⟨?_, ?_, ?_, ?_, ?_, ?_, ?_, ?_⟩
  · have hhist : (Network.f_phase_run (k + 1) d (k + 1) st).l1.C_hist =
        fun i => ringFoldT
          (fun t => (Network.f_phase_run (k + 1) d (t + 1) st).l1.C i)
          (st.l1.C_hist i) (k + 1) :=
      f_run_hist_generic (k + 1) d (fun s => s.l1.C_hist) (fun s => s.l1.C)
        (fun s => s.l1.integration_counter) f_step_l1_C_hist f_step_l1_cnt st hc1
        (k + 1)
    show (Network.f_phase_run (k + 1) d (k + 1) st).l1.average_C_f = _
    rw [hrw]
    show meanH ((Network.f_phase_step (d k) true
      (Network.f_phase_run (k + 1) d k st)).l1.C_hist) = _
    rw [← hrw, hhist]
    funext i
    show (∑ j, ringFoldT
        (fun t => (Network.f_phase_run (k + 1) d (t + 1) st).l1.C i)
        (st.l1.C_hist i) (k + 1) j) / ((integration_time : ℕ) : ℝ) = _
    rw [ringFoldT_sum _ _ (k + 1) hL]
    rfl
  · have hhist : (Network.f_phase_run (k + 1) d (k + 1) st).l1.phi_C_hist =
        fun i => ringFoldT
          (fun t => (Network.f_phase_run (k + 1) d (t + 1) st).l1.phi_C i)
          (st.l1.phi_C_hist i) (k + 1) :=
      f_run_hist_generic (k + 1) d (fun s => s.l1.phi_C_hist)
        (fun s => s.l1.phi_C) (fun s => s.l1.integration_counter)
        f_step_l1_phi_C_hist f_step_l1_cnt st hc1 (k + 1)
    show (Network.f_phase_run (k + 1) d (k + 1) st).l1.average_phi_C_f = _
    rw [hrw]
    show meanH ((Network.f_phase_step (d k) true
      (Network.f_phase_run (k + 1) d k st)).l1.phi_C_hist) = _
    rw [← hrw, hhist]
    funext i
    show (∑ j, ringFoldT
        (fun t => (Network.f_phase_run (k + 1) d (t + 1) st).l1.phi_C i)
        (st.l1.phi_C_hist i) (k + 1) j) / ((integration_time : ℕ) : ℝ) = _
    rw [ringFoldT_sum _ _ (k + 1) hL]
    rfl
  · have hhist : (Network.f_phase_run (k + 1) d (k + 1) st).l1.PSP_B_hist =
        fun i => ringFoldT
          (fun t => (Network.f_phase_run (k + 1) d (t + 1) st).l1.PSP_B i)
          (st.l1.PSP_B_hist i) (k + 1) :=
      f_run_hist_generic (k + 1) d (fun s => s.l1.PSP_B_hist)
        (fun s => s.l1.PSP_B) (fun s => s.l1.integration_counter)
        f_step_l1_PSP_B_hist f_step_l1_cnt st hc1 (k + 1)
    show (Network.f_phase_run (k + 1) d (k + 1) st).l1.average_PSP_B_f = _
    rw [hrw]
    show meanH ((Network.f_phase_step (d k) true
      (Network.f_phase_run (k + 1) d k st)).l1.PSP_B_hist) = _
    rw [← hrw, hhist]
    funext i
    show (∑ j, ringFoldT
        (fun t => (Network.f_phase_run (k + 1) d (t + 1) st).l1.PSP_B i)
        (st.l1.PSP_B_hist i) (k + 1) j) / ((integration_time : ℕ) : ℝ) = _
    rw [ringFoldT_sum _ _ (k + 1) hL]
    rfl
  · have hhist : (Network.f_phase_run (k + 1) d (k + 1) st).l0.C_hist =
        fun i => ringFoldT
          (fun t => (Network.f_phase_run (k + 1) d (t + 1) st).l0.C i)
          (st.l0.C_hist i) (k + 1) :=
      f_run_hist_generic (k + 1) d (fun s => s.l0.C_hist) (fun s => s.l0.C)
        (fun s => s.l0.integration_counter) f_step_l0_C_hist f_step_l0_cnt st hc0
        (k + 1)
    show (Network.f_phase_run (k + 1) d (k + 1) st).l0.average_C_f = _
    rw [hrw]
    show meanH ((Network.f_phase_step (d k) true
      (Network.f_phase_run (k + 1) d k st)).l0.C_hist) = _
    rw [← hrw, hhist]
    funext i
    show (∑ j, ringFoldT
        (fun t => (Network.f_phase_run (k + 1) d (t + 1) st).l0.C i)
        (st.l0.C_hist i) (k + 1) j) / ((integration_time : ℕ) : ℝ) = _
    rw [ringFoldT_sum _ _ (k + 1) hL]
    rfl
  · have hhist : (Network.f_phase_run (k + 1) d (k + 1) st).l0.A_hist =
        fun i => ringFoldT
          (fun t => (Network.f_phase_run (k + 1) d (t + 1) st).l0.A i)
          (st.l0.A_hist i) (k + 1) :=
      f_run_hist_generic (k + 1) d (fun s => s.l0.A_hist) (fun s => s.l0.A)
        (fun s => s.l0.integration_counter) f_step_l0_A_hist f_step_l0_cnt st hc0
        (k + 1)
    show (Network.f_phase_run (k + 1) d (k + 1) st).l0.average_A_f = _
    rw [hrw]
    show meanH ((Network.f_phase_step (d k) true
      (Network.f_phase_run (k + 1) d k st)).l0.A_hist) = _
    rw [← hrw, hhist]
    funext i
    show (∑ j, ringFoldT
        (fun t => (Network.f_phase_run (k + 1) d (t + 1) st).l0.A i)
        (st.l0.A_hist i) (k + 1) j) / ((integration_time : ℕ) : ℝ) = _
    rw [ringFoldT_sum _ _ (k + 1) hL]
    rfl
  · have hhist : (Network.f_phase_run (k + 1) d (k + 1) st).l0.phi_C_hist =
        fun i => ringFoldT
          (fun t => (Network.f_phase_run (k + 1) d (t + 1) st).l0.phi_C i)
          (st.l0.phi_C_hist i) (k + 1) :=
      f_run_hist_generic (k + 1) d (fun s => s.l0.phi_C_hist)
        (fun s => s.l0.phi_C) (fun s => s.l0.integration_counter)
        f_step_l0_phi_C_hist f_step_l0_cnt st hc0 (k + 1)
    show (Network.f_phase_run (k + 1) d (k + 1) st).l0.average_phi_C_f = _
    rw [hrw]
    show meanH ((Network.f_phase_step (d k) true
      (Network.f_phase_run (k + 1) d k st)).l0.phi_C_hist) = _
    rw [← hrw, hhist]
    funext i
    show (∑ j, ringFoldT
        (fun t => (Network.f_phase_run (k + 1) d (t + 1) st).l0.phi_C i)
        (st.l0.phi_C_hist i) (k + 1) j) / ((integration_time : ℕ) : ℝ) = _
    rw [ringFoldT_sum _ _ (k + 1) hL]
    rfl
  · have hhist : (Network.f_phase_run (k + 1) d (k + 1) st).l0.PSP_B_hist =
        fun i => ringFoldT
          (fun t => (Network.f_phase_run (k + 1) d (t + 1) st).l0.PSP_B i)
          (st.l0.PSP_B_hist i) (k + 1) :=
      f_run_hist_generic (k + 1) d (fun s => s.l0.PSP_B_hist)
        (fun s => s.l0.PSP_B) (fun s => s.l0.integration_counter)
        f_step_l0_PSP_B_hist f_step_l0_cnt st hc0 (k + 1)
    show (Network.f_phase_run (k + 1) d (k + 1) st).l0.average_PSP_B_f = _
    rw [hrw]
    show meanH ((Network.f_phase_step (d k) true
      (Network.f_phase_run (k + 1) d k st)).l0.PSP_B_hist) = _
    rw [← hrw, hhist]
    funext i
    show (∑ j, ringFoldT
        (fun t => (Network.f_phase_run (k + 1) d (t + 1) st).l0.PSP_B i)
        (st.l0.PSP_B_hist i) (k + 1) j) / ((integration_time : ℕ) : ℝ) = _
    rw [ringFoldT_sum _ _ (k + 1) hL]
    rfl
  · intro eta0 eta1 burst0 burst1 lt tg d2 st2
    exact ⟨funext fun i => mul_zero _, funext fun i => mul_zero _,
      funext fun i => mul_zero _, funext fun i => mul_zero _,
      funext fun i => mul_zero _, funext fun i => mul_zero _,
      funext fun i => mul_zero _, funext fun i => mul_zero _,
      funext fun i => mul_zero _, funext fun i => mul_zero _,
      funext fun i => mul_zero _, funext fun i => mul_zero _,
      funext fun i => mul_zero _⟩

/-- Witness for C2 at a concrete forward phase of length `20` from the
all-zero state. -/
theorem C2_witness :
    (zeroNet 1 1 1).l0.integration_counter = 0 ∧
    (zeroNet 1 1 1).l1.integration_counter = 0 ∧
    integration_time ≤ 20 ∧
    ((Network.f_phase 20 (zeroDraws 1 1 1) (zeroNet 1 1 1)).l1.average_C_f =
      fun i => (∑ t ∈ Finset.Ico (20 - integration_time) 20,
        runSeq 20 (zeroDraws 1 1 1) (zeroNet 1 1 1) (fun s => s.l1.C i) t) /
          (integration_time : ℝ)) :=
  ⟨rfl, rfl, by norm_num [integration_time],
    (C2_phase_averages 20 (zeroDraws 1 1 1) (zeroNet 1 1 1) rfl rfl
      (by norm_num [integration_time])).1⟩

/-! ## Claim C4: `test_weights` does not restore per-neuron state -/

theorem final_out_f_C {nIn n0 n1 : ℕ} (wts : Weights nIn n0 n1)
    (f : Fin n0 → Fin mem → ℝ) (dr : Fin n1 → ℝ) (c : Bool)
    (s : FinalState n1 n0) :
    (finalLayer.out_f wts f dr c s).C = fun i =>
      s.C i + (-g_L * s.C i +
        g_D * ((∑ j, wts.W1 i j * pspOf f j) + wts.b1 i - s.C i)) * dt := by
  cases c <;> rfl

theorem f_run_l1_C_zero {nIn n0 n1 : ℕ} (lf : ℕ) (d : ℕ → Draws nIn n0 n1) :
    ∀ (k : ℕ) (st : NetState nIn n0 n1), st.wts.W1 = (fun _ _ => 0) →
      st.wts.b1 = (fun _ => 0) → st.l1.C = (fun _ => 0) →
      (Network.f_phase_run lf d k st).l1.C = fun _ => 0 := by
  intro k
  induction k with
  | zero => intro st _ _ hC; exact hC
  | succ k ih =>
    intro st hW hb hC
    have hwts := f_phase_run_wts lf d k st
    have hW' : (Network.f_phase_run lf d k st).wts.W1 = fun _ _ => 0 := by
      rw [hwts]; exact hW
    have hb' : (Network.f_phase_run lf d k st).wts.b1 = fun _ => 0 := by
      rw [hwts]; exact hb
    have hC' := ih st hW hb hC
    show (Network.f_phase_step (d k) (decide (k = lf - 1))
        (Network.f_phase_run lf d k st)).l1.C = fun _ => 0
    rw [show (Network.f_phase_step (d k) (decide (k = lf - 1))
        (Network.f_phase_run lf d k st)).l1.C
      = (finalLayer.out_f (Network.f_phase_run lf d k st).wts
          (hiddenLayer.out_f (Network.f_phase_run lf d k st).wts
            (shiftAppend (Network.f_phase_run lf d k st).x_hist (d k).x)
            (Network.f_phase_run lf d k st).l1.S_hist (d k).s0
            (decide (k = lf - 1)) (Network.f_phase_run lf d k st).l0).S_hist
          (d k).s1 (decide (k = lf - 1)) (Network.f_phase_run lf d k st).l1).C
      from rfl]
    rw [final_out_f_C]
    funext i
    simp only [hW', hb', hC']
    simp

/-- Claim C4's divergence: at the concrete pre-call state `preEvalNet`
(output somatic potential `5`, zero weights) a `test_weights` call over one
all-zero test example leaves the output layer's somatic potential at the
last test example's value `0` instead of restoring the pre-call value `5`
(`copy.copy(self.l)` copies the list, not the layer objects), while the
input spike history is restored. -/
theorem C4_state_not_restored :
    (Network.test_weights [zeroDraws 1 1 1] preEvalNet).l1.C 0 = 0 ∧
      preEvalNet.l1.C 0 = 5 ∧
      (Network.test_weights [zeroDraws 1 1 1] preEvalNet).x_hist =
        preEvalNet.x_hist := by
  refine ⟨?_, rfl, rfl⟩
  have h : (Network.test_example (zeroDraws 1 1 1) preEvalNet).l1.C = fun _ => 0 := by
    unfold Network.test_example Network.f_phase
    apply f_run_l1_C_zero
    · rfl
    · rfl
    · funext i
      show preEvalNet.l1.C i * 0 = 0
      ring
  have h2 : (Network.test_weights [zeroDraws 1 1 1] preEvalNet).l1.C
      = (Network.test_example (zeroDraws 1 1 1) preEvalNet).l1.C := rfl
  rw [h2, h]

/-! ## Claim C9: the feedback bias is zero and never mutated -/

/-- Claim C9: every initialization branch of `init_weights` multiplies the
feedback bias by `0.0`, so it is identically zero at construction; none of
the weight-mutating operations (the weight updates, symmetrization,
sparsification, weight loading) ever writes it; and whenever the feedback
bias is zero the apical potential computed by `update_A` is exactly
`Y[m]·PSP_feedback`. -/
theorem C9_feedback_bias_zero {nIn n0 n1 : ℕ} :
    (∀ (Y : Fin n0 → Fin n1 → ℝ) (W_sd : ℝ) (r : Fin n1 → ℝ),
      Network.init_c_broadcast_opt Y W_sd r = fun _ => 0) ∧
    (∀ r : Fin n0 → ℝ, Network.init_c_broadcast_noopt r = fun _ => 0) ∧
    (∀ (W_avg W_sd : ℝ) (r : Fin n0 → ℝ),
      Network.init_c_direct_opt W_avg W_sd r = fun _ => 0) ∧
    (∀ r : Fin n0 → ℝ, Network.init_c_direct_noopt r = fun _ => 0) ∧
    (∀ (f_eta : ℝ) (bmask : Fin n1 → Bool) (st : NetState nIn n0 n1),
      (Network.final_update_W f_eta bmask st).wts.c0 = st.wts.c0) ∧
    (∀ (f_eta : ℝ) (bmask : Fin n0 → Bool) (st : NetState nIn n0 n1),
      (Network.hidden_update_W f_eta bmask st).wts.c0 = st.wts.c0) ∧
    (∀ (noisy : Bool) (noise : Fin n0 → Fin n1 → ℝ) (wts : Weights nIn n0 n1),
      (Network.make_weights_symmetric noisy noise wts).c0 = wts.c0) ∧
    (∀ (drop : Fin n0 → Fin n1 → Bool) (wts : Weights nIn n0 n1),
      (Network.sparsify_Y drop wts).c0 = wts.c0) ∧
    (∀ (W0L : Fin n0 → Fin nIn → ℝ) (b0L : Fin n0 → ℝ) (W1L : Fin n1 → Fin n0 → ℝ)
      (b1L : Fin n1 → ℝ) (Y0L : Fin n0 → Fin n1 → ℝ) (wts : Weights nIn n0 n1),
      (Network.load_weights W0L b0L W1L b1L Y0L wts).c0 = wts.c0) ∧
    (∀ (wts : Weights nIn n0 n1) (b_input : Fin n1 → Fin mem → ℝ)
      (s : HiddenState n0 nIn n1), wts.c0 = (fun _ => 0) →
      (hiddenLayer.update_A wts b_input s).A =
        fun i => ∑ j, wts.Y0 i j * pspOf b_input j) := by
  refine ⟨?_, ?_, ?_, ?_, fun _ _ _ => rfl, fun _ _ _ => rfl, fun _ _ _ => rfl,
    fun _ _ => rfl, fun _ _ _ _ _ _ => rfl, ?_⟩
  · intro Y W_sd r
    funext i
    unfold Network.init_c_broadcast_opt
    ring
  · intro r
    funext i
    unfold Network.init_c_broadcast_noopt
    ring
  · intro W_avg W_sd r
    funext i
    unfold Network.init_c_direct_opt
    ring
  · intro r
    funext i
    unfold Network.init_c_direct_noopt
    ring
  · intro wts b_input s hc
    show (fun i => (∑ j, wts.Y0 i j * pspOf b_input j) + wts.c0 i)
        = fun i => ∑ j, wts.Y0 i j * pspOf b_input j
    rw [hc]
    funext i
    ring

/-- Witness for C9: the apical-potential consequence at concrete zero
feedback bias. -/
theorem C9_witness :
    (zeroWts 1 1 10).c0 = (fun _ => 0) ∧
      (hiddenLayer.update_A (zeroWts 1 1 10) (fun _ _ => 0)
          (zeroHidden 1 1 10)).A =
        fun i => ∑ j, (zeroWts 1 1 10).Y0 i j * pspOf (fun _ _ => 0) j :=
  ⟨rfl, (@C9_feedback_bias_zero 1 1 10).2.2.2.2.2.2.2.2.2
    (zeroWts 1 1 10) (fun _ _ => 0) (zeroHidden 1 1 10) rfl⟩

end

end SegDend
